import Mathlib

/-!
Verification of the mcp-language-server protocol bridge (Rust port).

Shallow embedding of the protocol bridge:
- the gitignore filter (src/watcher/gitignore.rs)
- the edit tool (src/tools/edit.rs)
- the rename tool (src/tools/rename.rs)
- the JSON-RPC message model (src/lsp/protocol.rs)
- the framing codec (src/lsp/transport.rs)
- the LSP client runtime (src/lsp/client.rs)

Strings are modelled as `List Char`; Rust byte indices and `Content-Length`
byte counts are modelled as character counts, consistently on the writer and
the reader side (UTF-8 encoding is abstracted away; on ASCII data the two
coincide).  Rust `u32`/`i32` arithmetic is modelled on `Nat`/`Int`, with
checked subtraction made explicit where underflow can occur.
-/

namespace Spec2Proof

/-- `Chars` stands for a Rust `String`/`&str` value (sequence of characters). -/
abbrev Chars := List Char

/-- Rust `s.contains(pat)`: `pat` occurs as a contiguous substring of `s`. -/
def charsContains (s pat : Chars) : Bool :=
  match s with
  | [] => pat.isEmpty
  | _ :: t => pat.isPrefixOf s || charsContains t pat

/-- Rust `s.ends_with(pat)`. -/
def charsEndsWith (s pat : Chars) : Bool :=
  pat.isSuffixOf s

/-! ## Gitignore filter (src/watcher/gitignore.rs) -/

/-- `GitignoreFilter::is_always_ignored`, transcribed from gitignore.rs lines 82-104.
The path is the `to_string_lossy` rendering of the `Path`. -/
def is_always_ignored (path : Chars) : Bool :=
  if charsContains path "/.git/".data || charsEndsWith path "/.git".data then true
  else if charsContains path "/node_modules/".data || charsContains path "/.venv/".data
      || charsContains path "/__pycache__/".data then true
  else if charsEndsWith path "~".data || charsContains path ".bak".data
      || charsContains path ".swp".data then true
  else false

/-- The `GitignoreFilter` state: `gitignore` is the matcher compiled from the
workspace `.gitignore` (`none` when no `.gitignore` exists).  The matcher itself
comes from the external `ignore` crate and is modelled as an arbitrary predicate
on the workspace-relative path. -/
structure GitignoreFilter where
  gitignore : Option (Chars → Bool)
  workspace_root : Chars

/-- Rust `path.strip_prefix(&root).unwrap_or(path)` on rendered path strings:
remove a leading `root ++ "/"` when present, otherwise the path unchanged. -/
def stripWorkspaceRoot (root path : Chars) : Chars :=
  if (root ++ '/'.toString.data).isPrefixOf path then
    path.drop (root.length + 1)
  else path

/-- `GitignoreFilter::is_ignored`, transcribed from gitignore.rs lines 34-52. -/
def is_ignored (f : GitignoreFilter) (path : Chars) : Bool :=
  if is_always_ignored path then true
  else
    match f.gitignore with
    | some g => g (stripWorkspaceRoot f.workspace_root path)
    | none => false

/-- Split a path string into its `/`-separated components (empty pieces dropped);
used to state "the path has a component equal to ...". -/
def pathComponents (path : Chars) : List Chars :=
  (path.splitOnP (· = '/')).filter (· ≠ [])

/-! ## Shared text helpers (Rust `str::lines`) -/

/-- Remove one trailing `'\r'`, as Rust `str::lines` does on each line. -/
def stripTrailingCR (l : Chars) : Chars :=
  if l.getLast? = some '\r' then l.dropLast else l

/-- Rust `content.lines().collect::<Vec<_>>()`: split on `'\n'`, drop the final
empty piece produced by a trailing newline, strip one trailing `'\r'` per line. -/
def rustLines (content : Chars) : List Chars :=
  if content = [] then []
  else
    let ps := content.splitOnP (· = '\n')
    let ps := if ps.getLast? = some [] then ps.dropLast else ps
    ps.map stripTrailingCR

/-! ## LSP positions (lsp_types) -/

/-- `lsp_types::Position` (0-indexed line / character). -/
structure Position where
  line : Nat
  character : Nat
  deriving DecidableEq, Repr

/-- `lsp_types::Range`; the `end` field is called `endPos` (`end` is reserved). -/
structure Range where
  start : Position
  endPos : Position
  deriving DecidableEq, Repr

/-- `lsp_types::TextEdit`. -/
structure TextEdit where
  range : Range
  new_text : Chars
  deriving DecidableEq, Repr

/-! ## The edit tool (src/tools/edit.rs) -/

/-- `TextEditParams` from edit.rs: 1-indexed inclusive whole-line range plus
replacement text.  `start_line` and `end_line` are Rust `u32` values. -/
structure TextEditParams where
  start_line : Nat
  end_line : Nat
  new_text : Chars
  deriving DecidableEq, Repr

/-- The ways the pure core of `apply_text_edits` can abort. -/
inductive EditError where
  /-- `u32` subtraction underflow in `edit.start_line - 1` / `edit.end_line - 1`:
  a panic in checked builds, not a returned error. -/
  | underflowPanic
  /-- `position_to_index` rejected the position: "Invalid line number: {line}". -/
  | invalidLine (line : Nat)
  deriving DecidableEq, Repr

/-- Checked `u32` subtraction: `none` models the overflow panic of a checked build. -/
def u32Sub (a b : Nat) : Option Nat :=
  if b ≤ a then some (a - b) else none

/-- The 1-indexed → 0-indexed conversion of one edit (edit.rs lines 57-89):
subtract one from both lines, start character 0, end character the end line's
length when in range and 0 otherwise. -/
def convertEdit (lines : List Chars) (e : TextEditParams) : Option TextEdit :=
  match u32Sub e.start_line 1, u32Sub e.end_line 1 with
  | some start_line, some end_line =>
    let start_character := 0
    let end_character :=
      if h : end_line < lines.length then (lines.get ⟨end_line, h⟩).length else 0
    some ⟨⟨⟨start_line, start_character⟩, ⟨end_line, end_character⟩⟩, e.new_text⟩
  | _, _ => none

/-- Conversion of the whole edit list, in order (`edits.iter().map(...)`). -/
def convertEdits (lines : List Chars) (edits : List TextEditParams) : Option (List TextEdit) :=
  edits.mapM (convertEdit lines)

/-- `position_to_index` from edit.rs lines 130-152: reject out-of-range lines,
otherwise sum the lengths (+1 for the newline) of the preceding lines and add
the character offset clamped to the line length. -/
def position_to_index (content : Chars) (pos : Position) : Except EditError Nat :=
  let lines := rustLines content
  if h : pos.line < lines.length then
    let index := ((lines.take pos.line).map (fun l => l.length + 1)).sum
    .ok (index + min pos.character (lines.get ⟨pos.line, h⟩).length)
  else
    .error (.invalidLine pos.line)

/-- One step of the edit-application loop (edit.rs lines 95-107): indices are
computed against the **original** content, the splice happens on the evolving
result. -/
def applyOneEdit (content : Chars) (result : Chars) (edit : TextEdit) :
    Except EditError Chars := do
  let start_index ← position_to_index content edit.range.start
  let end_index ← position_to_index content edit.range.endPos
  .ok (result.take start_index ++ edit.new_text ++ result.drop end_index)

/-- The pure core of `apply_text_edits` (edit.rs lines 23-127): the on-disk
content and the edit list go in, the new on-disk content comes out.  Path
canonicalisation, disk I/O and the LSP `open`/`didChange` traffic around it are
not part of this function.  The edits are iterated with `.iter().rev()`,
i.e. in reverse of the order the caller listed them. -/
def apply_text_edits (content : Chars) (edits : List TextEditParams) :
    Except EditError Chars := do
  let lines := rustLines content
  let lsp_edits ←
    match convertEdits lines edits with
    | some es => Except.ok es
    | none => Except.error EditError.underflowPanic
  lsp_edits.reverse.foldlM (applyOneEdit content) content

/-- Applying the converted edits in descending start-position order, the
discipline the specification describes: the converted edits are sorted by
descending start line before being applied. -/
def applyDescSpec (content : Chars) (edits : List TextEditParams) :
    Except EditError Chars := do
  let lines := rustLines content
  let lsp_edits ←
    match convertEdits lines edits with
    | some es => Except.ok es
    | none => Except.error EditError.underflowPanic
  let sorted := lsp_edits.insertionSort (fun a b => b.range.start.line ≤ a.range.start.line)
  sorted.foldlM (applyOneEdit content) content

/-! ## The rename tool (src/tools/rename.rs) -/

/-- Index computation in `apply_workspace_edit` (rename.rs lines 95-109):
`for i in 0..n { if i < lines.len() { idx += lines[i].len() + 1 } }`. -/
def renameLineIndex (lines : List Chars) (n : Nat) : Nat :=
  ((lines.take n).map (fun l => l.length + 1)).sum

/-- One iteration of the rename edit loop (rename.rs lines 84-122): the line
table is recomputed from the **current** content, the splice is guarded by the
bounds check, and an out-of-bounds edit leaves the content unchanged. -/
def renameApplyOne (new_content : Chars) (range : Range) (new_text : Chars) : Chars :=
  let lines := rustLines new_content
  let start_index := renameLineIndex lines range.start.line + range.start.character
  let end_index := renameLineIndex lines range.endPos.line + range.endPos.character
  if start_index ≤ new_content.length && end_index ≤ new_content.length then
    new_content.take start_index ++ new_text ++ new_content.drop end_index
  else
    new_content

/-- The per-file loop of `apply_workspace_edit` (rename.rs lines 81-122): edits
are traversed with `.iter().rev()`; `edits_applied` is incremented on every
iteration whether or not the bounds check let the splice happen.  Returns the
new content and the number of counted edits. -/
def renameApplyFile (content : Chars) (edits : List TextEdit) : Chars × Nat :=
  edits.reverse.foldl
    (fun acc e => (renameApplyOne acc.1 e.range e.new_text, acc.2 + 1))
    (content, 0)

/-- The character for the decimal digit `d` (`d < 10`). -/
def digitChar (d : Nat) : Char :=
  Char.ofNat (48 + d)

/-- Fuel-driven decimal rendering; the fuel bounds the number of divisions. -/
def natCharsAux : Nat → Nat → Chars
  | 0, _ => []
  | fuel + 1, n =>
    if n < 10 then [digitChar n]
    else natCharsAux fuel (n / 10) ++ [digitChar (n % 10)]

/-- Decimal digits of a natural number, most significant first
(Rust `format!("{}", n)` for unsigned values). -/
def natChars (n : Nat) : Chars :=
  natCharsAux (n + 1) n

/-- The summary string of `apply_workspace_edit` (rename.rs lines 219-222):
`format!("Applied {} edits across {} files", edits_applied, files_changed)`. -/
def renameSummary (edits_applied files_changed : Nat) : Chars :=
  "Applied ".data ++ natChars edits_applied ++ " edits across ".data
    ++ natChars files_changed ++ " files".data

/-- The `changes`-map branch of `apply_workspace_edit` (rename.rs lines 66-134
and 219-222), over an explicit file store (path ↦ content).  Reading a missing
file is the read error; each visited file is written back and counted in
`files_changed`; the summary string is produced at the end. -/
def apply_workspace_edit_changes (files : List (Chars × Chars))
    (changes : List (Chars × List TextEdit)) :
    Except Chars (List (Chars × Chars) × Chars) := do
  let (files, edits_applied, files_changed) ←
    changes.foldlM
      (fun (acc : List (Chars × Chars) × Nat × Nat) change => do
        let (files, edits_applied, files_changed) := acc
        match files.lookup change.1 with
        | none => Except.error ("Failed to read file: ".data ++ change.1)
        | some content =>
          let (new_content, n) := renameApplyFile content change.2
          let files := files.map fun f =>
            if f.1 = change.1 then (f.1, new_content) else f
          Except.ok (files, edits_applied + n, files_changed + 1))
      (files, 0, 0)
  .ok (files, renameSummary edits_applied files_changed)

/-! ## JSON values (serde_json::Value, restricted to the integer-number fragment) -/

/-- `serde_json::Value`.  Numbers are modelled by integers (the protocol's
numeric fields are all integral); floating-point numbers are outside the model. -/
inductive Json where
  | null
  | bool (b : Bool)
  | num (n : Int)
  | str (s : Chars)
  | arr (elems : List Json)
  | obj (fields : List (Chars × Json))

/-- Is this JSON value the literal `null`? -/
def Json.isNull : Json → Bool
  | .null => true
  | _ => false

/-! ## The message model (src/lsp/protocol.rs) -/

/-- `MessageID` (protocol.rs lines 7-13): a JSON-RPC ID, number (`i32`),
string, or null. -/
inductive MessageID where
  | number (n : Int)
  | string (s : Chars)
  | null
  deriving DecidableEq, Repr

/-- Decimal rendering of an `i32` (Rust `Display` for `i32`). -/
def intChars (n : Int) : Chars :=
  if n < 0 then '-' :: natChars n.natAbs else natChars n.toNat

/-- The `Display` implementation of `MessageID` (protocol.rs lines 34-42), used
as the key of the pending-response table (`id.to_string()`). -/
def MessageID.toChars : MessageID → Chars
  | .number n => intChars n
  | .string s => s
  | .null => "<null>".data

/-- `ResponseError` (protocol.rs lines 44-49). -/
structure ResponseError where
  code : Int
  message : Chars
  deriving DecidableEq, Repr

/-- `Message` (protocol.rs lines 51-65): the JSON-RPC 2.0 message record.
Every optional field is serialized only when present
(`skip_serializing_if = "Option::is_none"`). -/
structure Message where
  jsonrpc : Chars
  id : Option MessageID
  method : Option Chars
  params : Option Json
  result : Option Json
  error : Option ResponseError

/-- `Message::is_request` (protocol.rs lines 128-130). -/
def Message.is_request (m : Message) : Bool :=
  m.method.isSome && m.id.isSome

/-- `Message::is_notification` (protocol.rs lines 132-134). -/
def Message.is_notification (m : Message) : Bool :=
  m.method.isSome && m.id.isNone

/-- `Message::is_response` (protocol.rs lines 136-140). -/
def Message.is_response (m : Message) : Bool :=
  m.method.isNone && m.id.isSome && (m.result.isSome || m.error.isSome)

/-! ## The LSP client runtime (src/lsp/client.rs) -/

/-- `lsp_types::Diagnostic`, reduced to the attributes the bridge reads. -/
structure Diagnostic where
  range : Range
  severity : Option Nat
  message : Chars
  deriving DecidableEq, Repr

/-- The state the message loop and handler registries touch: the
pending-response table (keyed by `id.to_string()`), the two handler
registries, and the `_diagnostics` cache (keyed by URI). -/
structure LoopState where
  responseChannels : List Chars
  requestHandlers : List (Chars × (Json → Except Chars Json))
  notificationHandlers : List (Chars × (Json → Except Chars Unit))
  diagnostics : List (Chars × List Diagnostic)

/-- Observable actions of one dispatch step of the message loop. -/
inductive Effect where
  /-- A pending caller's oneshot sink is signalled with a result or an error. -/
  | delivered (id : Chars) (result : Except Chars Json)
  /-- A message is framed and written to the server (`write_message`). -/
  | wrote (msg : Message)
  /-- A notification handler failed; the error is logged. -/
  | notifHandlerError (method : Chars) (err : Chars)
  /-- No handler for a notification; logged at debug level. -/
  | noHandlerLogged (method : Chars)

/-- Does this effect write a message on the transport? -/
def Effect.isWrote : Effect → Bool
  | .wrote _ => true
  | _ => false

/-- `HashMap::remove` on the pending-response key set: `some rest` when the key
was present. -/
def chanRemove : List Chars → Chars → Option (List Chars)
  | [], _ => none
  | k :: t, u => if k = u then some t else (chanRemove t u).map (k :: ·)

/-- First-match lookup in a handler registry. -/
def regLookup {α : Type} : List (Chars × α) → Chars → Option α
  | [], _ => none
  | (k, v) :: t, u => if k = u then some v else regLookup t u

/-- The error string `anyhow!("LSP error: {} (code: {})", ...)` (client.rs line 591). -/
def lspErrorChars (e : ResponseError) : Chars :=
  "LSP error: ".data ++ e.message ++ " (code: ".data ++ intChars e.code ++ ")".data

/-- A success response message as built in client.rs lines 620-627. -/
def responseMsg (id : MessageID) (result : Json) : Message :=
  ⟨"2.0".data, some id, none, none, some result, none⟩

/-- An error response message as built in client.rs lines 628-639
(code −32603, internal error). -/
def errorResponseMsg (id : MessageID) (message : Chars) : Message :=
  ⟨"2.0".data, some id, none, none, none, some ⟨-32603, message⟩⟩

/-- Dispatch of one inbound server message, transcribed from the
`Some(server_msg) = msg_rx.recv()` arm of `Client::message_loop`
(client.rs lines 585-658).  The branch order of the source is kept:
a message with an `id` is looked up in the pending-response table first;
only messages without an `id` reach the method dispatch, whose inner
`server_msg.id.is_some()` test selects between the request path and the
notification path. -/
def handleServerMessage (client : LoopState) (serverMsg : Message) :
    LoopState × List Effect :=
  match serverMsg.id with
  | some id =>
    let key := id.toChars
    (match chanRemove client.responseChannels key with
     | some rest =>
       let eff :=
         match serverMsg.error with
         | some error => Effect.delivered key (.error (lspErrorChars error))
         | none =>
           match serverMsg.result with
           | some result => Effect.delivered key (.ok result)
           | none =>
             Effect.delivered key (.error "LSP response has neither result nor error".data)
       ({ client with responseChannels := rest }, [eff])
     | none => (client, []))
  | none =>
    match serverMsg.method with
    | some method =>
      if hreq : serverMsg.id.isSome then
        -- server-request path (client.rs lines 602-642)
        let id := serverMsg.id.get hreq
        let params := serverMsg.params.getD Json.null
        let handler_result :=
          match regLookup client.requestHandlers method with
          | some handler => handler params
          | none => Except.error ("No handler for request method: ".data ++ method)
        let response :=
          match handler_result with
          | .ok result => responseMsg id result
          | .error e => errorResponseMsg id e
        (client, [Effect.wrote response])
      else
        -- notification path (client.rs lines 643-657)
        let params := serverMsg.params.getD Json.null
        match regLookup client.notificationHandlers method with
        | some handler =>
          match handler params with
          | .ok _ => (client, [])
          | .error e => (client, [Effect.notifHandlerError method e])
        | none => (client, [Effect.noHandlerLogged method])
    | none => (client, [])

/-- `Client::get_diagnostics` (client.rs lines 434-438): the cached list for the
URI, or the empty list. -/
def get_diagnostics (client : LoopState) (uri : Chars) : List Diagnostic :=
  (regLookup client.diagnostics uri).getD []

/-- The state of the client after `Client::new` (client.rs lines 107-118):
empty pending table, empty registries, empty diagnostic cache.  `initialize`
(client.rs lines 176-269) registers no handlers (the registration site is the
`TODO` at line 265), so this is also the state in which the message loop runs. -/
def initialLoopState : LoopState :=
  ⟨[], [], [], []⟩

/-! ## Document tracking (open / change / close, src/lsp/client.rs) -/

/-- The `open_files` table: URI string ↦ version (`OpenFileInfo.version`).
The version is the `i32` of the source, always in the positive range in any
modelled trace, so it is carried as a `Nat`. -/
abbrev OpenFiles := List (Chars × Nat)

/-- `to_uri` (client.rs lines 674-678): `Url::from_file_path`, with
percent-encoding abstracted (the URI is only used as a table key). -/
def to_uri (path : Chars) : Chars :=
  "file://".data ++ path

/-- Lookup in the open-file table. -/
def fLookup : OpenFiles → Chars → Option Nat
  | [], _ => none
  | (k, v) :: t, u => if k = u then some v else fLookup t u

/-- `HashMap::insert` / in-place version update on the open-file table. -/
def fSet : OpenFiles → Chars → Nat → OpenFiles
  | [], u, v => [(u, v)]
  | (k, w) :: t, u, v => if k = u then (u, v) :: t else (k, w) :: fSet t u v

/-- `HashMap::remove` on the open-file table. -/
def fErase : OpenFiles → Chars → OpenFiles
  | [], _ => []
  | (k, w) :: t, u => if k = u then t else (k, w) :: fErase t u

/-- The document-synchronization notifications emitted by
`open_file`/`notify_change`/`close_file` (full-text sync). -/
inductive LspEmit where
  | didOpen (uri : Chars) (version : Nat) (text : Chars)
  | didChange (uri : Chars) (version : Nat) (text : Chars)
  | didClose (uri : Chars)
  deriving DecidableEq, Repr

/-- `Client::open_file` (client.rs lines 290-327).  `read` is the outcome of
`tokio::fs::read_to_string`.  Already-open URIs are a no-op success; otherwise
the file is read, `didOpen` is sent with version 1, and the URI is tracked at
version 1. -/
def open_file (st : OpenFiles) (path : Chars) (read : Except Chars Chars) :
    OpenFiles × List LspEmit × Except Chars Unit :=
  let uri := to_uri path
  if (fLookup st uri).isSome then (st, [], .ok ())
  else
    match read with
    | .error e => (st, [], .error e)
    | .ok content => (fSet st uri 1, [.didOpen uri 1 content], .ok ())

/-- `Client::notify_change` (client.rs lines 330-371).  Unopened URIs fail
before anything is touched; otherwise the version is incremented **before** the
file is read, and `didChange` carries the incremented version and the full new
content. -/
def notify_change (st : OpenFiles) (path : Chars) (read : Except Chars Chars) :
    OpenFiles × List LspEmit × Except Chars Unit :=
  let uri := to_uri path
  match fLookup st uri with
  | none => (st, [], .error ("Cannot notify change for unopened file: ".data ++ path))
  | some v =>
    let version := v + 1
    let st := fSet st uri version
    match read with
    | .error e => (st, [], .error e)
    | .ok content => (st, [.didChange uri version content], .ok ())

/-- `Client::close_file` (client.rs lines 374-401): no-op when not open,
otherwise `didClose` is sent and the URI is untracked. -/
def close_file (st : OpenFiles) (path : Chars) :
    OpenFiles × List LspEmit × Except Chars Unit :=
  let uri := to_uri path
  if (fLookup st uri).isSome then (fErase st uri, [.didClose uri], .ok ())
  else (st, [], .ok ())

/-- `Client::is_file_open` (client.rs lines 426-432). -/
def is_file_open (st : OpenFiles) (path : Chars) : Bool :=
  (fLookup st (to_uri path)).isSome

/-- One call of the per-URI document state machine, with the read succeeding
(the content is the operation's payload). -/
inductive FileOp where
  | openOp (content : Chars)
  | changeOp (content : Chars)
  | closeOp
  deriving DecidableEq, Repr

/-- Run a sequence of calls against one path, collecting the emitted
notifications in order. -/
def runFileOps (st : OpenFiles) (path : Chars) : List FileOp → OpenFiles × List LspEmit
  | [] => (st, [])
  | op :: ops =>
    let step :=
      match op with
      | .openOp c => open_file st path (.ok c)
      | .changeOp c => notify_change st path (.ok c)
      | .closeOp => close_file st path
    let rest := runFileOps step.1 path ops
    (rest.1, step.2.1 ++ rest.2)

/-- Split an emission trace into completed open-close sessions of emitted
versions plus the trailing (still open) session. -/
def sessionsFold (acc : List (List Nat) × List Nat) (emits : List LspEmit) :
    List (List Nat) × List Nat :=
  emits.foldl
    (fun acc e =>
      match e with
      | .didOpen _ v _ => (acc.1, acc.2 ++ [v])
      | .didChange _ v _ => (acc.1, acc.2 ++ [v])
      | .didClose _ => (acc.1 ++ [acc.2], []))
    acc

/-- All per-session version sequences of an emission trace (completed sessions
and the trailing one). -/
def allSessions (emits : List LspEmit) : List (List Nat) :=
  (sessionsFold ([], []) emits).1 ++ [(sessionsFold ([], []) emits).2]

/-- The per-path correspondence between the open-file table and the currently
open session's emitted versions: either untracked with an empty session, or
tracked at version `v` with the session being exactly `[1, …, v]`. -/
def MatchSt (p : Chars) (st : OpenFiles) (cur : List Nat) : Prop :=
  (st = [] ∧ cur = []) ∨
    ∃ v, st = [(to_uri p, v)] ∧ cur = List.range' 1 v ∧ 1 ≤ v

/-! ## serde_json serialization (external crate, modelled)

`serde_json::to_vec` is compact rendering of the attribute-directed encoding of
the `Message` struct; `serde_json::from_slice` is a JSON text parser followed by
the attribute-directed decoding.  Control characters are escaped (`\"`, `\\`,
`\b`, `\t`, `\n`, `\f`, `\r`, and `\u00XX` for the remaining ones); whitespace
skipping is omitted on the parsing side since the writer emits compact JSON.
Numbers are unbounded integers (serde's `i64`/`u64`/`f64` bounds abstracted). -/

/-- `'{'` (written numerically). -/
def braceL : Char := Char.ofNat 123

/-- `'}'` (written numerically). -/
def braceR : Char := Char.ofNat 125

/-- Lowercase hexadecimal digit `d < 16`. -/
def hexDigitChar (d : Nat) : Char :=
  if d < 10 then Char.ofNat (48 + d) else Char.ofNat (87 + d)

/-- JSON escaping of one character. -/
def escapeChar (c : Char) : Chars :=
  if c = '\"' then ['\\', '\"']
  else if c = '\\' then ['\\', '\\']
  else if c = Char.ofNat 8 then ['\\', 'b']
  else if c = Char.ofNat 9 then ['\\', 't']
  else if c = Char.ofNat 10 then ['\\', 'n']
  else if c = Char.ofNat 12 then ['\\', 'f']
  else if c = Char.ofNat 13 then ['\\', 'r']
  else if c.toNat < 32 then
    ['\\', 'u', '0', '0', hexDigitChar (c.toNat / 16), hexDigitChar (c.toNat % 16)]
  else [c]

/-- JSON escaping of a character sequence. -/
def escapeList : Chars → Chars
  | [] => []
  | c :: cs => escapeChar c ++ escapeList cs

/-- A JSON string literal: quote, escaped content, quote. -/
def renderString (s : Chars) : Chars :=
  '\"' :: escapeList s ++ ['\"']

mutual

/-- Compact JSON rendering (serde_json's `to_vec`, at the character level). -/
def renderJson : Json → Chars
  | .null => "null".data
  | .bool true => "true".data
  | .bool false => "false".data
  | .num n => intChars n
  | .str s => renderString s
  | .arr [] => ['[', ']']
  | .arr (x :: xs) => '[' :: (renderJson x ++ renderElems xs) ++ [']']
  | .obj [] => [braceL, braceR]
  | .obj ((k, v) :: fs) =>
    braceL :: (renderString k ++ ':' :: renderJson v ++ renderMembers fs) ++ [braceR]

/-- Rendering of the remaining array elements, each preceded by a comma. -/
def renderElems : List Json → Chars
  | [] => []
  | x :: xs => ',' :: renderJson x ++ renderElems xs

/-- Rendering of the remaining object members, each preceded by a comma. -/
def renderMembers : List (Chars × Json) → Chars
  | [] => []
  | (k, v) :: fs => ',' :: (renderString k ++ ':' :: renderJson v) ++ renderMembers fs

end

/-- Is `c` a decimal digit? -/
def isDigitChar (c : Char) : Bool :=
  48 ≤ c.toNat && c.toNat ≤ 57

/-- Numeric value of a decimal digit character. -/
def digitVal (c : Char) : Nat :=
  c.toNat - 48

/-- Value of a most-significant-first digit sequence. -/
def digitsVal (l : Chars) : Nat :=
  l.foldl (fun a c => a * 10 + digitVal c) 0

/-- Parse a nonempty run of decimal digits. -/
def parseNatChars (s : Chars) : Option (Nat × Chars) :=
  let ds := s.takeWhile isDigitChar
  if ds.isEmpty then none else some (digitsVal ds, s.dropWhile isDigitChar)

/-- Value of a hexadecimal digit character. -/
def hexVal (c : Char) : Option Nat :=
  if 48 ≤ c.toNat ∧ c.toNat ≤ 57 then some (c.toNat - 48)
  else if 97 ≤ c.toNat ∧ c.toNat ≤ 102 then some (c.toNat - 87)
  else if 65 ≤ c.toNat ∧ c.toNat ≤ 70 then some (c.toNat - 55)
  else none

/-- One-character JSON escapes. -/
def unescapeChar (e : Char) : Option Char :=
  if e = '\"' then some '\"'
  else if e = '\\' then some '\\'
  else if e = '/' then some '/'
  else if e = 'b' then some (Char.ofNat 8)
  else if e = 'f' then some (Char.ofNat 12)
  else if e = 'n' then some (Char.ofNat 10)
  else if e = 'r' then some (Char.ofNat 13)
  else if e = 't' then some (Char.ofNat 9)
  else none

/-- Parse the body of a JSON string literal (after the opening quote), up to
and including the closing quote. -/
def parseStringBody : Chars → Option (Chars × Chars)
  | [] => none
  | '\"' :: cs => some ([], cs)
  | ['\\'] => none
  | '\\' :: 'u' :: a :: b :: c2 :: d :: cs3 =>
    match hexVal a, hexVal b, hexVal c2, hexVal d with
    | some ha, some hb, some hc, some hd =>
      let n := ((ha * 16 + hb) * 16 + hc) * 16 + hd
      match parseStringBody cs3 with
      | some (content, rest) => some (Char.ofNat n :: content, rest)
      | none => none
    | _, _, _, _ => none
  | '\\' :: e :: cs2 =>
    match unescapeChar e with
    | some u =>
      match parseStringBody cs2 with
      | some (content, rest) => some (u :: content, rest)
      | none => none
    | none => none
  | c :: cs =>
    match parseStringBody cs with
    | some (content, rest) => some (c :: content, rest)
    | none => none

mutual

/-- Fuel-driven JSON value parsing (the fuel bounds the nesting work). -/
def parseValue : Nat → Chars → Option (Json × Chars)
  | 0, _ => none
  | fuel + 1, s =>
    match s with
    | [] => none
    | c :: cs =>
      if c = 'n' then
        match cs with
        | 'u' :: 'l' :: 'l' :: r => some (.null, r)
        | _ => none
      else if c = 't' then
        match cs with
        | 'r' :: 'u' :: 'e' :: r => some (.bool true, r)
        | _ => none
      else if c = 'f' then
        match cs with
        | 'a' :: 'l' :: 's' :: 'e' :: r => some (.bool false, r)
        | _ => none
      else if c = '\"' then
        match parseStringBody cs with
        | some (content, rest) => some (.str content, rest)
        | none => none
      else if c = '[' then
        match cs with
        | [] => none
        | b :: bs =>
          if b = ']' then some (.arr [], bs)
          else
            match parseElems fuel (b :: bs) with
            | some (xs, rest) => some (.arr xs, rest)
            | none => none
      else if c = braceL then
        match cs with
        | [] => none
        | b :: bs =>
          if b = braceR then some (.obj [], bs)
          else
            match parseMembers fuel (b :: bs) with
            | some (fs, rest) => some (.obj fs, rest)
            | none => none
      else if c = '-' then
        match parseNatChars cs with
        | some (k, rest) => some (.num (-(k : Int)), rest)
        | none => none
      else if isDigitChar c then
        match parseNatChars (c :: cs) with
        | some (k, rest) => some (.num (k : Int), rest)
        | none => none
      else none

/-- Parse `value (',' value)* ']'`. -/
def parseElems : Nat → Chars → Option (List Json × Chars)
  | 0, _ => none
  | fuel + 1, s =>
    match parseValue fuel s with
    | some (v, rest) =>
      match rest with
      | ',' :: r2 =>
        (match parseElems fuel r2 with
         | some (vs, r3) => some (v :: vs, r3)
         | none => none)
      | ']' :: r2 => some ([v], r2)
      | _ => none
    | none => none

/-- Parse `string ':' value (',' string ':' value)* '}'`. -/
def parseMembers : Nat → Chars → Option (List (Chars × Json) × Chars)
  | 0, _ => none
  | fuel + 1, s =>
    match s with
    | '\"' :: cs =>
      match parseStringBody cs with
      | some (k, rest) =>
        match rest with
        | ':' :: r2 =>
          match parseValue fuel r2 with
          | some (v, r3) =>
            (match r3 with
             | ',' :: r4 =>
               (match parseMembers fuel r4 with
                | some (fs, r5) => some ((k, v) :: fs, r5)
                | none => none)
             | b :: r4 =>
               if b = braceR then some ([(k, v)], r4) else none
             | [] => none)
          | none => none
        | _ => none
      | none => none
    | _ => none

end

mutual

/-- Structural size of a JSON value, used as a fuel bound for the parser. -/
def jsize : Json → Nat
  | .null => 1
  | .bool _ => 1
  | .num _ => 1
  | .str _ => 1
  | .arr xs => 1 + lsize xs
  | .obj fs => 1 + msize fs

/-- Structural size of a JSON array's elements. -/
def lsize : List Json → Nat
  | [] => 1
  | x :: xs => jsize x + lsize xs

/-- Structural size of a JSON object's members. -/
def msize : List (Chars × Json) → Nat
  | [] => 1
  | (_, v) :: fs => jsize v + msize fs

end

/-! ## The serde attribute-directed Message codec -/

/-- The JSON object keys of the `Message` struct. -/
def kJsonrpc : Chars := "jsonrpc".data

/-- Key of the `id` field. -/
def kId : Chars := "id".data

/-- Key of the `method` field. -/
def kMethod : Chars := "method".data

/-- Key of the `params` field. -/
def kParams : Chars := "params".data

/-- Key of the `result` field. -/
def kResult : Chars := "result".data

/-- Key of the `error` field. -/
def kError : Chars := "error".data

/-- Key of the `code` field of a `ResponseError`. -/
def kCode : Chars := "code".data

/-- Key of the `message` field of a `ResponseError`. -/
def kMessage : Chars := "message".data

/-- The untagged serialization of `MessageID`. -/
def encodeID : MessageID → Json
  | .number n => .num n
  | .string s => .str s
  | .null => .null

/-- The serialization of `ResponseError`. -/
def encodeError (e : ResponseError) : Json :=
  .obj [(kCode, .num e.code), (kMessage, .str e.message)]

/-- An optional struct field: omitted when `none`
(`skip_serializing_if = "Option::is_none"`). -/
def optField (k : Chars) (v : Option Json) : List (Chars × Json) :=
  match v with
  | some j => [(k, j)]
  | none => []

/-- The field list of a serialized `Message`: fields in declaration order,
optional fields omitted when absent. -/
def encFields (jr : Chars) (a b c d e : Option Json) : List (Chars × Json) :=
  [(kJsonrpc, Json.str jr)] ++ optField kId a ++ optField kMethod b
    ++ optField kParams c ++ optField kResult d ++ optField kError e

/-- The serde serialization of `Message` (protocol.rs lines 51-65). -/
def encodeMessage (m : Message) : Json :=
  .obj (encFields m.jsonrpc (m.id.map encodeID) (m.method.map .str)
    m.params m.result (m.error.map encodeError))

/-- First-match field lookup in a JSON object. -/
def getField (fields : List (Chars × Json)) (k : Chars) : Option Json :=
  regLookup fields k

/-- serde's `i32` range test. -/
def i32InRange (n : Int) : Bool :=
  -2147483648 ≤ n && n < 2147483648

/-- The untagged deserialization of `MessageID`: the `Number`, `String`, `Null`
variants are tried in declaration order. -/
def decodeID (j : Json) : Option MessageID :=
  match j with
  | .num n => if i32InRange n then some (.number n) else none
  | .str s => some (.string s)
  | .null => some .null
  | _ => none

/-- Deserialization of a JSON value into a Rust `String`. -/
def decodeStr (j : Json) : Option Chars :=
  match j with
  | .str s => some s
  | _ => none

/-- Deserialization of `ResponseError`: an object with an `i32` `code` and a
string `message`; unknown fields ignored. -/
def decodeError (j : Json) : Option ResponseError :=
  match j with
  | .obj fs =>
    match getField fs kCode, getField fs kMessage with
    | some (.num n), some (.str s) => if i32InRange n then some ⟨n, s⟩ else none
    | _, _ => none
  | _ => none

/-- serde's handling of an `Option<T>` struct field: an absent field and an
explicit JSON `null` both deserialize to `None`; any other value goes through
`T`'s deserializer. -/
def decodeOptField {α : Type} (o : Option Json) (f : Json → Option α) :
    Option (Option α) :=
  match o with
  | none => some none
  | some .null => some none
  | some j => (f j).map some

/-- The serde deserialization of `Message`: an object whose `jsonrpc` field is
a required string and whose other fields are optional. -/
def decodeMessage (j : Json) : Option Message :=
  match j with
  | .obj fs =>
    match getField fs kJsonrpc with
    | some (.str v) =>
      match decodeOptField (getField fs kId) decodeID,
            decodeOptField (getField fs kMethod) decodeStr,
            decodeOptField (getField fs kParams) some,
            decodeOptField (getField fs kResult) some,
            decodeOptField (getField fs kError) decodeError with
      | some id, some method, some params, some result, some error =>
        some ⟨v, id, method, params, result, error⟩
      | _, _, _, _, _ => none
    | _ => none
  | _ => none

/-- `serde_json::to_vec(&msg)`. -/
def to_vec (m : Message) : Chars :=
  renderJson (encodeMessage m)

/-- Whitespace for JSON / Rust `str::trim` purposes. -/
def isWsChar (c : Char) : Bool :=
  c = ' ' || c = Char.ofNat 9 || c = Char.ofNat 10 || c = Char.ofNat 13

/-- `serde_json::from_slice::<Message>`: parse one JSON value, allow trailing
whitespace only, then decode the struct. -/
def from_slice (content : Chars) : Option Message :=
  match parseValue (content.length + 1) content with
  | some (j, rest) => if rest.all isWsChar then decodeMessage j else none
  | none => none

/-! ## The framing codec (src/lsp/transport.rs) -/

/-- `write_message` (transport.rs lines 8-37): serialize, then emit
`Content-Length: N\r\n\r\n` followed by the body. -/
def write_message (m : Message) : Chars :=
  let data := to_vec m
  "Content-Length: ".data ++ natChars data.length ++ "\r\n\r\n".data ++ data

/-- `reader.read_line`: consume up to and including the first `'\n'`
(or everything, at end of input); returns (line, rest). -/
def readLine : Chars → Chars × Chars
  | [] => ([], [])
  | c :: cs =>
    if c = Char.ofNat 10 then ([c], cs)
    else
      let r := readLine cs
      (c :: r.1, r.2)

/-- The failure modes of `read_message` (transport.rs lines 40-120). -/
inductive ReadError where
  /-- "EOF while reading headers" -/
  | eofHeaders
  /-- "Invalid Content-Length" -/
  | invalidContentLength
  /-- "Content-Length header is missing" -/
  | missingContentLength
  /-- "EOF while reading content" -/
  | eofContent
  /-- "Failed to parse JSON-RPC message" -/
  | parseError
  deriving DecidableEq, Repr

/-- Rust `str::trim` (on the character sets the headers use). -/
def trimChars (l : Chars) : Chars :=
  ((l.dropWhile isWsChar).reverse.dropWhile isWsChar).reverse

/-- The header prefix `"Content-Length: "`. -/
def clPat : Chars := "Content-Length: ".data

/-- Rust `trim_start_matches("Content-Length: ")`: repeatedly strip the
prefix.  Fuel-driven (each strip removes 16 characters). -/
def trimStartCLAux : Nat → Chars → Chars
  | 0, l => l
  | fuel + 1, l =>
    if clPat.isPrefixOf l then trimStartCLAux fuel (l.drop clPat.length) else l

/-- `line.trim_start_matches("Content-Length: ")`. -/
def trimStartCL (l : Chars) : Chars :=
  trimStartCLAux (l.length + 1) l

/-- Rust `str::parse::<usize>`: an optional `'+'` sign then one or more
decimal digits and nothing else. -/
def parseUsize (l : Chars) : Option Nat :=
  let l2 :=
    match l with
    | c :: t => if c = '+' then t else l
    | [] => l
  if l2 ≠ [] ∧ l2.all isDigitChar then some (digitsVal l2) else none

/-- The header loop of `read_message` (transport.rs lines 47-69): read a line;
empty read is EOF-in-headers; a blank (trimmed) line ends the headers; a
`Content-Length` header is parsed into the accumulator.  Fuel-driven (each
iteration consumes at least one character). -/
def readHeaders : Nat → Chars → Option Nat → Except ReadError (Option Nat × Chars)
  | 0, _, _ => .error .eofHeaders
  | fuel + 1, s, acc =>
    match readLine s with
    | (line, rest) =>
      if line.isEmpty then .error .eofHeaders
      else
        let t := trimChars line
        if t.isEmpty then .ok (acc, rest)
        else if clPat.isPrefixOf t then
          match parseUsize (trimStartCL t) with
          | some n => readHeaders fuel rest (some n)
          | none => .error .invalidContentLength
        else readHeaders fuel rest acc

/-- `read_message` (transport.rs lines 40-120): read headers, require a
`Content-Length`, read exactly that many characters, parse them as a
`Message`.  Returns the message and the unconsumed remainder of the stream. -/
def read_message (input : Chars) : Except ReadError (Message × Chars) := do
  let (clOpt, rest) ← readHeaders (input.length + 1) input none
  match clOpt with
  | none => .error .missingContentLength
  | some n =>
    if rest.length < n then .error .eofContent
    else
      match from_slice (rest.take n) with
      | some msg => .ok (msg, rest.drop n)
      | none => .error .parseError

/-- The messages whose serde encoding is lossless: no `id`/`params`/`result`
field carrying the JSON `null` value (serde folds an explicit `null` of an
`Option` field into "absent"), and `i32`-representable numeric ids and error
codes. -/
def wellFormedMessage (m : Message) : Bool :=
  (match m.id with
   | some (.number n) => i32InRange n
   | some (.string _) => true
   | some .null => false
   | none => true)
  && (match m.params with | some j => !j.isNull | none => true)
  && (match m.result with | some j => !j.isNull | none => true)
  && (match m.error with | some e => i32InRange e.code | none => true)

end Spec2Proof

namespace Spec2Proof

/-! # Verification

Helper lemmas, then one theorem per specification claim. -/

/-! ## Digits and decimal rendering -/

theorem digitChar_isDigit : ∀ d, d < 10 → isDigitChar (digitChar d) = true := by decide

theorem digitVal_digitChar : ∀ d, d < 10 → digitVal (digitChar d) = d := by decide

theorem natCharsAux_all_digits :
    ∀ fuel n c, c ∈ natCharsAux fuel n → isDigitChar c = true := by
  intro fuel
  induction fuel with
  | zero => intro n c hc; simp [natCharsAux] at hc
  | succ f ih =>
    intro n c hc
    by_cases h : n < 10
    · simp [natCharsAux, h] at hc
      subst hc
      exact digitChar_isDigit n h
    · simp [natCharsAux, h] at hc
      rcases hc with hc | hc
      · exact ih _ _ hc
      · subst hc
        exact digitChar_isDigit _ (Nat.mod_lt _ (by omega))

theorem natCharsAux_ne_nil : ∀ fuel n, 0 < fuel → natCharsAux fuel n ≠ [] := by
  intro fuel n h
  cases fuel with
  | zero => omega
  | succ f =>
    by_cases h10 : n < 10 <;> simp [natCharsAux, h10]

theorem natChars_all_digits : ∀ n c, c ∈ natChars n → isDigitChar c = true := by
  intro n c hc
  exact natCharsAux_all_digits _ _ _ hc

theorem natChars_ne_nil (n : Nat) : natChars n ≠ [] :=
  natCharsAux_ne_nil _ _ (by omega)

theorem digitsVal_append_one (l : Chars) (c : Char) :
    digitsVal (l ++ [c]) = digitsVal l * 10 + digitVal c := by
  simp [digitsVal, List.foldl_append]

theorem digitsVal_natCharsAux :
    ∀ fuel n, n < fuel → digitsVal (natCharsAux fuel n) = n := by
  intro fuel
  induction fuel with
  | zero => omega
  | succ f ih =>
    intro n hn
    by_cases h : n < 10
    · simp [natCharsAux, h, digitsVal, digitVal_digitChar n h]
    · have hdiv : n / 10 < f := by
        have h1 : n / 10 < n := Nat.div_lt_self (by omega) (by omega)
        omega
      rw [natCharsAux, if_neg h, digitsVal_append_one, ih _ hdiv,
        digitVal_digitChar _ (Nat.mod_lt _ (by omega))]
      omega

theorem digitsVal_natChars (n : Nat) : digitsVal (natChars n) = n :=
  digitsVal_natCharsAux _ _ (by omega)

/-! ## takeWhile / dropWhile over a rendered run -/

theorem takeWhile_append_run (p : Char → Bool) :
    ∀ (l r : Chars), (∀ c ∈ l, p c = true) → (∀ c, r.head? = some c → p c = false) →
      (l ++ r).takeWhile p = l := by
  intro l
  induction l with
  | nil =>
    intro r _ hr
    cases r with
    | nil => rfl
    | cons c t => simp [List.takeWhile_cons, hr c rfl]
  | cons a l ih =>
    intro r hl hr
    simp only [List.cons_append, List.takeWhile_cons, hl a (by simp)]
    simp [ih r (fun c hc => hl c (by simp [hc])) hr]

theorem dropWhile_append_run (p : Char → Bool) :
    ∀ (l r : Chars), (∀ c ∈ l, p c = true) → (∀ c, r.head? = some c → p c = false) →
      (l ++ r).dropWhile p = r := by
  intro l
  induction l with
  | nil =>
    intro r _ hr
    cases r with
    | nil => rfl
    | cons c t => simp [List.dropWhile_cons, hr c rfl]
  | cons a l ih =>
    intro r hl hr
    simp only [List.cons_append, List.dropWhile_cons, hl a (by simp)]
    exact ih r (fun c hc => hl c (by simp [hc])) hr

theorem parseNatChars_natChars (n : Nat) (rest : Chars)
    (hr : ∀ c, rest.head? = some c → isDigitChar c = false) :
    parseNatChars (natChars n ++ rest) = some (n, rest) := by
  unfold parseNatChars
  rw [takeWhile_append_run _ _ _ (fun c hc => natChars_all_digits n c hc) hr,
    dropWhile_append_run _ _ _ (fun c hc => natChars_all_digits n c hc) hr]
  simp [natChars_ne_nil n, List.isEmpty_iff, digitsVal_natChars]

/-! ## String escaping round trip -/

theorem char_eq_of_toNat_eq {a b : Char} (h : a.toNat = b.toNat) : a = b := by
  rw [← Char.ofNat_toNat a, h, Char.ofNat_toNat]

theorem hexVal_hexDigitChar : ∀ d, d < 16 → hexVal (hexDigitChar d) = some d := by decide

theorem parseStringBody_cons_plain (c : Char) (h1 : ¬ c = '\"') (h2 : ¬ c = '\\')
    (t r : Chars) (out : Chars) (h : parseStringBody t = some (out, r)) :
    parseStringBody (c :: t) = some (c :: out, r) := by
  rw [parseStringBody.eq_6] <;> simp [h1, h2, h]

theorem parseStringBody_escape_pair (e u : Char) (he : ¬ e = 'u')
    (hu : unescapeChar e = some u) (t r : Chars) (out : Chars)
    (h : parseStringBody t = some (out, r)) :
    parseStringBody ('\\' :: e :: t) = some (u :: out, r) := by
  rw [parseStringBody.eq_5] <;> simp [he, hu, h]

theorem parseStringBody_escape_u (n : Nat) (hn : n < 32) (t r : Chars) (out : Chars)
    (h : parseStringBody t = some (out, r)) :
    parseStringBody
        ('\\' :: 'u' :: '0' :: '0' :: hexDigitChar (n / 16) :: hexDigitChar (n % 16) :: t)
      = some (Char.ofNat n :: out, r) := by
  have h16a : n / 16 < 16 := by omega
  have h16b : n % 16 < 16 := Nat.mod_lt _ (by omega)
  simp only [parseStringBody, show hexVal '0' = some 0 from by decide,
    hexVal_hexDigitChar _ h16a, hexVal_hexDigitChar _ h16b, h]
  have heq : n / 16 * 16 + n % 16 = n := by
    have := Nat.div_add_mod n 16
    omega
  simp [heq]

theorem parseStringBody_escapeList :
    ∀ (s rest : Chars), parseStringBody (escapeList s ++ '\"' :: rest) = some (s, rest) := by
  intro s
  induction s with
  | nil => intro rest; rfl
  | cons c cs ih =>
    intro rest
    show parseStringBody ((escapeChar c ++ escapeList cs) ++ '\"' :: rest) = _
    rw [List.append_assoc]
    by_cases h1 : c = '\"'
    · rw [show escapeChar c = ['\\', '\"'] from by rw [escapeChar, if_pos h1]]
      rw [show (['\\', '\"'] : Chars) ++ (escapeList cs ++ '\"' :: rest)
          = '\\' :: '\"' :: (escapeList cs ++ '\"' :: rest) from rfl]
      rw [parseStringBody_escape_pair '\"' '\"' (by decide) (by decide) _ _ _ (ih rest), h1]
    by_cases h2 : c = '\\'
    · rw [show escapeChar c = ['\\', '\\'] from by rw [escapeChar, if_neg h1, if_pos h2]]
      rw [show (['\\', '\\'] : Chars) ++ (escapeList cs ++ '\"' :: rest)
          = '\\' :: '\\' :: (escapeList cs ++ '\"' :: rest) from rfl]
      rw [parseStringBody_escape_pair '\\' '\\' (by decide) (by decide) _ _ _ (ih rest), h2]
    by_cases h3 : c = Char.ofNat 8
    · rw [show escapeChar c = ['\\', 'b'] from by rw [escapeChar, if_neg h1, if_neg h2, if_pos h3]]
      rw [show (['\\', 'b'] : Chars) ++ (escapeList cs ++ '\"' :: rest)
          = '\\' :: 'b' :: (escapeList cs ++ '\"' :: rest) from rfl]
      rw [parseStringBody_escape_pair 'b' (Char.ofNat 8) (by decide) (by decide) _ _ _ (ih rest),
        h3]
    by_cases h4 : c = Char.ofNat 9
    · rw [show escapeChar c = ['\\', 't'] from by
        rw [escapeChar, if_neg h1, if_neg h2, if_neg h3, if_pos h4]]
      rw [show (['\\', 't'] : Chars) ++ (escapeList cs ++ '\"' :: rest)
          = '\\' :: 't' :: (escapeList cs ++ '\"' :: rest) from rfl]
      rw [parseStringBody_escape_pair 't' (Char.ofNat 9) (by decide) (by decide) _ _ _ (ih rest),
        h4]
    by_cases h5 : c = Char.ofNat 10
    · rw [show escapeChar c = ['\\', 'n'] from by
        rw [escapeChar, if_neg h1, if_neg h2, if_neg h3, if_neg h4, if_pos h5]]
      rw [show (['\\', 'n'] : Chars) ++ (escapeList cs ++ '\"' :: rest)
          = '\\' :: 'n' :: (escapeList cs ++ '\"' :: rest) from rfl]
      rw [parseStringBody_escape_pair 'n' (Char.ofNat 10) (by decide) (by decide) _ _ _
        (ih rest), h5]
    by_cases h6 : c = Char.ofNat 12
    · rw [show escapeChar c = ['\\', 'f'] from by
        rw [escapeChar, if_neg h1, if_neg h2, if_neg h3, if_neg h4, if_neg h5, if_pos h6]]
      rw [show (['\\', 'f'] : Chars) ++ (escapeList cs ++ '\"' :: rest)
          = '\\' :: 'f' :: (escapeList cs ++ '\"' :: rest) from rfl]
      rw [parseStringBody_escape_pair 'f' (Char.ofNat 12) (by decide) (by decide) _ _ _
        (ih rest), h6]
    by_cases h7 : c = Char.ofNat 13
    · rw [show escapeChar c = ['\\', 'r'] from by
        rw [escapeChar, if_neg h1, if_neg h2, if_neg h3, if_neg h4, if_neg h5, if_neg h6,
          if_pos h7]]
      rw [show (['\\', 'r'] : Chars) ++ (escapeList cs ++ '\"' :: rest)
          = '\\' :: 'r' :: (escapeList cs ++ '\"' :: rest) from rfl]
      rw [parseStringBody_escape_pair 'r' (Char.ofNat 13) (by decide) (by decide) _ _ _
        (ih rest), h7]
    by_cases h8 : c.toNat < 32
    · rw [show escapeChar c
          = ['\\', 'u', '0', '0', hexDigitChar (c.toNat / 16), hexDigitChar (c.toNat % 16)] from by
        rw [escapeChar, if_neg h1, if_neg h2, if_neg h3, if_neg h4, if_neg h5, if_neg h6,
          if_neg h7, if_pos h8]]
      rw [show (['\\', 'u', '0', '0', hexDigitChar (c.toNat / 16), hexDigitChar (c.toNat % 16)]
            : Chars) ++ (escapeList cs ++ '\"' :: rest)
          = '\\' :: 'u' :: '0' :: '0' :: hexDigitChar (c.toNat / 16)
            :: hexDigitChar (c.toNat % 16) :: (escapeList cs ++ '\"' :: rest) from rfl]
      rw [parseStringBody_escape_u c.toNat h8 _ _ _ (ih rest), Char.ofNat_toNat]
    · rw [show escapeChar c = [c] from by
        rw [escapeChar, if_neg h1, if_neg h2, if_neg h3, if_neg h4, if_neg h5, if_neg h6,
          if_neg h7, if_neg h8]]
      rw [show ([c] : Chars) ++ (escapeList cs ++ '\"' :: rest)
          = c :: (escapeList cs ++ '\"' :: rest) from rfl]
      rw [parseStringBody_cons_plain c h1 h2 _ _ _ (ih rest)]

/-! ## Sizes and head characters of rendered JSON -/

theorem jsize_pos : ∀ j, 1 ≤ jsize j := by
  intro j; cases j <;> simp [jsize]

theorem lsize_pos : ∀ xs, 1 ≤ lsize xs := by
  intro xs
  induction xs with
  | nil => simp [lsize]
  | cons x xs ih => have := jsize_pos x; simp [lsize]; omega

theorem msize_pos : ∀ fs, 1 ≤ msize fs := by
  intro fs
  induction fs with
  | nil => simp [msize]
  | cons f fs ih =>
    rcases f with ⟨k, v⟩
    have := jsize_pos v
    simp [msize]
    omega

theorem char_ne_of_digit_ne {c : Char} (d : Char) (hd : isDigitChar c = true)
    (hnd : isDigitChar d = false) : ¬ c = d := by
  intro h
  rw [h, hnd] at hd
  cases hd

theorem render_head (j : Json) :
    ∃ c t, renderJson j = c :: t ∧ ¬ c = ']' ∧ ¬ c = braceR := by
  cases j with
  | null => exact ⟨'n', _, rfl, by decide, by decide⟩
  | bool b =>
    cases b
    · exact ⟨'f', _, rfl, by decide, by decide⟩
    · exact ⟨'t', _, rfl, by decide, by decide⟩
  | num n =>
    by_cases h : n < 0
    · exact ⟨'-', natChars n.natAbs, by simp [renderJson, intChars, h], by decide, by decide⟩
    · obtain ⟨d, ds, hds⟩ := List.exists_cons_of_ne_nil (natChars_ne_nil n.toNat)
      have hd : isDigitChar d = true :=
        natChars_all_digits n.toNat d (by rw [hds]; exact List.mem_cons_self _ _)
      refine ⟨d, ds, ?_, ?_, ?_⟩
      · simp [renderJson, intChars, h, hds]
      · exact char_ne_of_digit_ne _ hd (by decide)
      · exact char_ne_of_digit_ne _ hd (by decide)
  | str s => exact ⟨'\"', _, rfl, by decide, by decide⟩
  | arr xs => cases xs with
    | nil => exact ⟨'[', _, rfl, by decide, by decide⟩
    | cons x xs => exact ⟨'[', _, rfl, by decide, by decide⟩
  | obj fs => cases fs with
    | nil => exact ⟨braceL, _, rfl, by decide, by decide⟩
    | cons f fs =>
      rcases f with ⟨k, v⟩
      exact ⟨braceL, _, rfl, by decide, by decide⟩

theorem renderElems_sep (xs : List Json) (r : Chars) :
    ∀ c, (renderElems xs ++ ']' :: r).head? = some c → isDigitChar c = false := by
  intro c h
  cases xs with
  | nil => simp [renderElems] at h; subst h; decide
  | cons x xs => simp [renderElems] at h; subst h; decide

theorem renderMembers_sep (fs : List (Chars × Json)) (r : Chars) :
    ∀ c, (renderMembers fs ++ braceR :: r).head? = some c → isDigitChar c = false := by
  intro c h
  cases fs with
  | nil => simp [renderMembers] at h; subst h; decide
  | cons f fs =>
    rcases f with ⟨k, v⟩
    simp [renderMembers] at h; subst h; decide

/-- Entry into the numeric branch of the parser: a digit-headed input reaches
`parseNatChars`. -/
theorem parseValue_digit_entry (f : Nat) (c : Char) (cs : Chars)
    (hd : isDigitChar c = true) :
    parseValue (f + 1) (c :: cs)
      = (match parseNatChars (c :: cs) with
         | some (k, r) => some (.num (k : Int), r)
         | none => none) := by
  simp only [parseValue]
  rw [if_neg (char_ne_of_digit_ne _ hd (by decide)),
    if_neg (char_ne_of_digit_ne _ hd (by decide)),
    if_neg (char_ne_of_digit_ne _ hd (by decide)),
    if_neg (char_ne_of_digit_ne _ hd (by decide)),
    if_neg (char_ne_of_digit_ne _ hd (by decide)),
    if_neg (char_ne_of_digit_ne _ hd (by decide)),
    if_neg (char_ne_of_digit_ne _ hd (by decide)),
    if_pos hd]

/-! ## The JSON parse/render round trip -/

theorem parse_render_core : ∀ (N : Nat),
    (∀ j, jsize j ≤ N → ∀ (fuel : Nat) (rest : Chars), jsize j ≤ fuel →
      (∀ c, rest.head? = some c → isDigitChar c = false) →
      parseValue fuel (renderJson j ++ rest) = some (j, rest))
    ∧ (∀ x xs, jsize x + lsize xs ≤ N → ∀ (f : Nat) (rest : Chars),
      jsize x + lsize xs ≤ f →
      (∀ c, rest.head? = some c → isDigitChar c = false) →
      parseElems f (renderJson x ++ renderElems xs ++ ']' :: rest) = some (x :: xs, rest))
    ∧ (∀ (k : Chars) v fs, jsize v + msize fs ≤ N → ∀ (f : Nat) (rest : Chars),
      jsize v + msize fs ≤ f →
      (∀ c, rest.head? = some c → isDigitChar c = false) →
      parseMembers f (renderString k ++ ':' :: renderJson v ++ renderMembers fs
        ++ braceR :: rest) = some ((k, v) :: fs, rest)) := by
  intro N
  induction N with
  | zero =>
    refine ⟨?_, ?_, ?_⟩
    · intro j hj
      have := jsize_pos j
      omega
    · intro x xs hx
      have h1 := jsize_pos x
      have h2 := lsize_pos xs
      omega
    · intro k v fs hv
      have h1 := jsize_pos v
      have h2 := msize_pos fs
      omega
  | succ N ih =>
    obtain ⟨ihV, ihE, ihM⟩ := ih
    refine ⟨?_, ?_, ?_⟩
    · -- values
      intro j
      cases j with
      | null =>
        intro _ fuel rest hf _
        cases fuel with
        | zero => simp [jsize] at hf
        | succ f => rfl
      | bool b =>
        intro _ fuel rest hf _
        cases fuel with
        | zero => simp [jsize] at hf
        | succ f => cases b <;> rfl
      | num n =>
        intro _ fuel rest hf hrest
        cases fuel with
        | zero => simp [jsize] at hf
        | succ f =>
          by_cases hneg : n < 0
          · rw [show renderJson (.num n) = '-' :: natChars n.natAbs from by
              simp [renderJson, intChars, hneg]]
            rw [show ('-' :: natChars n.natAbs) ++ rest = '-' :: (natChars n.natAbs ++ rest)
              from rfl]
            rw [show parseValue (f + 1) ('-' :: (natChars n.natAbs ++ rest))
                = (match parseNatChars (natChars n.natAbs ++ rest) with
                   | some (k, r) => some (.num (-(k : Int)), r)
                   | none => none) from rfl]
            rw [parseNatChars_natChars _ _ hrest]
            have hn : -((n.natAbs : Nat) : Int) = n := by omega
            show some (Json.num (-((n.natAbs : Nat) : Int)), rest) = _
            rw [hn]
          · rw [show renderJson (.num n) = natChars n.toNat from by
              simp [renderJson, intChars, hneg]]
            obtain ⟨d, ds, hds⟩ := List.exists_cons_of_ne_nil (natChars_ne_nil n.toNat)
            have hd : isDigitChar d = true :=
              natChars_all_digits _ d (by rw [hds]; exact List.mem_cons_self _ _)
            rw [hds, show (d :: ds) ++ rest = d :: (ds ++ rest) from rfl,
              parseValue_digit_entry f d (ds ++ rest) hd,
              show d :: (ds ++ rest) = (d :: ds) ++ rest from rfl, ← hds,
              parseNatChars_natChars _ _ hrest]
            have hn : ((n.toNat : Nat) : Int) = n := by omega
            show some (Json.num ((n.toNat : Nat) : Int), rest) = _
            rw [hn]
      | str s =>
        intro _ fuel rest hf _
        cases fuel with
        | zero => simp [jsize] at hf
        | succ f =>
          show parseValue (f + 1) (('\"' :: escapeList s ++ ['\"']) ++ rest) = _
          rw [show (('\"' :: escapeList s ++ ['\"']) ++ rest)
              = '\"' :: (escapeList s ++ '\"' :: rest) from by simp]
          rw [show parseValue (f + 1) ('\"' :: (escapeList s ++ '\"' :: rest))
              = (match parseStringBody (escapeList s ++ '\"' :: rest) with
                 | some (content, r) => some (.str content, r)
                 | none => none) from rfl]
          rw [parseStringBody_escapeList s rest]
      | arr xs =>
        intro hN fuel rest hf hrest
        cases fuel with
        | zero => simp [jsize] at hf
        | succ f =>
          cases xs with
          | nil => rfl
          | cons x xs =>
            obtain ⟨c0, t0, hrx, hc0r, _⟩ := render_head x
            show parseValue (f + 1)
              (('[' :: (renderJson x ++ renderElems xs) ++ [']']) ++ rest) = _
            rw [show (('[' :: (renderJson x ++ renderElems xs) ++ [']']) ++ rest)
                = '[' :: (renderJson x ++ (renderElems xs ++ ']' :: rest)) from by simp]
            rw [hrx, show (c0 :: t0) ++ (renderElems xs ++ ']' :: rest)
                = c0 :: (t0 ++ (renderElems xs ++ ']' :: rest)) from rfl]
            rw [show parseValue (f + 1) ('[' :: c0 :: (t0 ++ (renderElems xs ++ ']' :: rest)))
                = (if c0 = ']' then some (.arr [], t0 ++ (renderElems xs ++ ']' :: rest))
                   else
                     match parseElems f (c0 :: (t0 ++ (renderElems xs ++ ']' :: rest))) with
                     | some (ys, r) => some (.arr ys, r)
                     | none => none) from rfl]
            rw [if_neg hc0r]
            rw [show c0 :: (t0 ++ (renderElems xs ++ ']' :: rest))
                = (c0 :: t0) ++ (renderElems xs ++ ']' :: rest) from rfl, ← hrx]
            rw [show renderJson x ++ (renderElems xs ++ ']' :: rest)
                = renderJson x ++ renderElems xs ++ ']' :: rest from by simp]
            rw [ihE x xs (by simp [jsize, lsize] at hN; omega) f rest
              (by simp [jsize, lsize] at hf; omega) hrest]
      | obj fs =>
        intro hN fuel rest hf hrest
        cases fuel with
        | zero => simp [jsize] at hf
        | succ f =>
          cases fs with
          | nil => rfl
          | cons kv fs =>
            rcases kv with ⟨k, v⟩
            show parseValue (f + 1)
              ((braceL :: (renderString k ++ ':' :: renderJson v ++ renderMembers fs)
                ++ [braceR]) ++ rest) = _
            rw [show ((braceL :: (renderString k ++ ':' :: renderJson v ++ renderMembers fs)
                  ++ [braceR]) ++ rest)
                = braceL :: '\"' :: (escapeList k
                    ++ '\"' :: (':' :: (renderJson v ++ (renderMembers fs ++ braceR :: rest))))
                from by simp [renderString]]
            rw [show parseValue (f + 1) (braceL :: '\"' :: (escapeList k
                  ++ '\"' :: (':' :: (renderJson v ++ (renderMembers fs ++ braceR :: rest)))))
                = (match parseMembers f ('\"' :: (escapeList k
                    ++ '\"' :: (':' :: (renderJson v
                      ++ (renderMembers fs ++ braceR :: rest))))) with
                   | some (gs, r) => some (.obj gs, r)
                   | none => none) from by
              rw [show parseValue (f + 1) (braceL :: '\"' :: (escapeList k
                    ++ '\"' :: (':' :: (renderJson v ++ (renderMembers fs ++ braceR :: rest)))))
                  = (if ('\"' : Char) = braceR then some (.obj [], escapeList k
                      ++ '\"' :: (':' :: (renderJson v ++ (renderMembers fs ++ braceR :: rest))))
                     else
                       match parseMembers f ('\"' :: (escapeList k
                         ++ '\"' :: (':' :: (renderJson v
                           ++ (renderMembers fs ++ braceR :: rest))))) with
                       | some (gs, r) => some (.obj gs, r)
                       | none => none) from rfl]
              rw [if_neg (by decide)]]
            rw [show '\"' :: (escapeList k
                  ++ '\"' :: (':' :: (renderJson v ++ (renderMembers fs ++ braceR :: rest))))
                = renderString k ++ ':' :: renderJson v ++ renderMembers fs ++ braceR :: rest
                from by simp [renderString]]
            rw [ihM k v fs (by simp [jsize, msize] at hN; omega) f rest
              (by simp [jsize, msize] at hf; omega) hrest]
    · -- array elements
      intro x xs hN f rest hf hrest
      cases f with
      | zero => have h1 := jsize_pos x; have h2 := lsize_pos xs; omega
      | succ f' =>
        have hcall := ihV x (by have h2 := lsize_pos xs; omega) f'
          (renderElems xs ++ ']' :: rest)
          (by have h2 := lsize_pos xs; omega) (renderElems_sep xs rest)
        simp only [parseElems]
        rw [show renderJson x ++ renderElems xs ++ ']' :: rest
            = renderJson x ++ (renderElems xs ++ ']' :: rest) from by simp]
        rw [hcall]
        cases xs with
        | nil => rfl
        | cons y ys =>
          rw [show renderElems (y :: ys) ++ ']' :: rest
              = ',' :: (renderJson y ++ renderElems ys ++ ']' :: rest) from by
            simp [renderElems]]
          have hrec := ihE y ys
            (by simp [lsize] at hN; have h1 := jsize_pos x; omega) f' rest
            (by simp [lsize] at hf; have h1 := jsize_pos x; omega) hrest
          simp only [hrec]
    · -- object members
      intro k v fs hN f rest hf hrest
      cases f with
      | zero => have h1 := jsize_pos v; have h2 := msize_pos fs; omega
      | succ f' =>
        have hcall := ihV v (by have h2 := msize_pos fs; omega) f'
          (renderMembers fs ++ braceR :: rest)
          (by have h2 := msize_pos fs; omega) (renderMembers_sep fs rest)
        rw [show renderString k ++ ':' :: renderJson v ++ renderMembers fs ++ braceR :: rest
            = '\"' :: (escapeList k
                ++ '\"' :: (':' :: (renderJson v ++ (renderMembers fs ++ braceR :: rest))))
            from by simp [renderString]]
        simp only [parseMembers]
        rw [parseStringBody_escapeList k
          (':' :: (renderJson v ++ (renderMembers fs ++ braceR :: rest)))]
        simp only [hcall]
        cases fs with
        | nil => rfl
        | cons kv2 fs2 =>
          rcases kv2 with ⟨k2, v2⟩
          rw [show renderMembers ((k2, v2) :: fs2) ++ braceR :: rest
              = ',' :: (renderString k2 ++ ':' :: renderJson v2 ++ renderMembers fs2
                  ++ braceR :: rest) from by simp [renderMembers]]
          have hrec := ihM k2 v2 fs2
            (by simp [msize] at hN; have h1 := jsize_pos v; omega) f' rest
            (by simp [msize] at hf; have h1 := jsize_pos v; omega) hrest
          simp only [hrec]

/-- Parsing inverts rendering: a rendered JSON value followed by any
non-digit-headed remainder parses back to itself, given enough fuel. -/
theorem parse_render (j : Json) (fuel : Nat) (rest : Chars) (hf : jsize j ≤ fuel)
    (hrest : ∀ c, rest.head? = some c → isDigitChar c = false) :
    parseValue fuel (renderJson j ++ rest) = some (j, rest) :=
  (parse_render_core (jsize j)).1 j le_rfl fuel rest hf hrest

theorem jsize_le_render_core : ∀ (N : Nat),
    (∀ j, jsize j ≤ N → jsize j ≤ (renderJson j).length)
    ∧ (∀ xs, lsize xs ≤ N → lsize xs ≤ (renderElems xs).length + 1)
    ∧ (∀ fs, msize fs ≤ N → msize fs ≤ (renderMembers fs).length + 1) := by
  intro N
  induction N with
  | zero =>
    refine ⟨?_, ?_, ?_⟩
    · intro j hj; have := jsize_pos j; omega
    · intro xs hxs; have := lsize_pos xs; omega
    · intro fs hfs; have := msize_pos fs; omega
  | succ N ih =>
    obtain ⟨ihV, ihE, ihM⟩ := ih
    refine ⟨?_, ?_, ?_⟩
    · intro j
      cases j with
      | null => intro _; simp [jsize, renderJson]
      | bool b => intro _; cases b <;> simp [jsize, renderJson]
      | num n =>
        intro _
        have hn1 : 0 < (natChars n.natAbs).length :=
          List.length_pos.mpr (natChars_ne_nil _)
        have hn2 : 0 < (natChars n.toNat).length :=
          List.length_pos.mpr (natChars_ne_nil _)
        by_cases h : n < 0 <;> simp [jsize, renderJson, intChars, h] <;> try omega
      | str s => intro _; simp [jsize, renderJson, renderString]
      | arr xs =>
        intro hN
        cases xs with
        | nil => simp [jsize, lsize, renderJson]
        | cons x xs =>
          have hjx := jsize_pos x
          have hlxs := lsize_pos xs
          simp only [jsize, lsize] at hN
          have hx := ihV x (by omega)
          have hxs := ihE xs (by omega)
          simp [jsize, lsize, renderJson, List.length_append]
          omega
      | obj fs =>
        intro hN
        cases fs with
        | nil => simp [jsize, msize, renderJson]
        | cons kv fs =>
          rcases kv with ⟨k, v⟩
          have hjv := jsize_pos v
          have hmfs := msize_pos fs
          simp only [jsize, msize] at hN
          have hv := ihV v (by omega)
          have hfs := ihM fs (by omega)
          simp [jsize, msize, renderJson, renderString, List.length_append]
          omega
    · intro xs
      cases xs with
      | nil => intro _; simp [lsize, renderElems]
      | cons y ys =>
        intro hN
        have hjy := jsize_pos y
        have hlys := lsize_pos ys
        simp only [lsize] at hN
        have hy := ihV y (by omega)
        have hys := ihE ys (by omega)
        simp [lsize, renderElems, List.length_append]
        omega
    · intro fs
      cases fs with
      | nil => intro _; simp [msize, renderMembers]
      | cons kv fs =>
        rcases kv with ⟨k, v⟩
        intro hN
        have hjv := jsize_pos v
        have hmfs := msize_pos fs
        simp only [msize] at hN
        have hv := ihV v (by omega)
        have hfs := ihM fs (by omega)
        simp [msize, renderMembers, renderString, List.length_append]
        omega

/-- The parser fuel `content.length + 1` used by `from_slice` is enough for any
rendered value. -/
theorem jsize_le_render (j : Json) : jsize j ≤ (renderJson j).length :=
  (jsize_le_render_core (jsize j)).1 j le_rfl

/-! ## The serde Message codec round trip -/

theorem regLookup_append {α : Type} (a b : List (Chars × α)) (k : Chars) :
    regLookup (a ++ b) k
      = (match regLookup a k with
         | some v => some v
         | none => regLookup b k) := by
  induction a with
  | nil => simp [regLookup]
  | cons p t ih =>
    rcases p with ⟨k', v'⟩
    by_cases h : k' = k
    · simp [regLookup, h]
    · simp [regLookup, h, ih]

theorem regLookup_optField (k' k : Chars) (v : Option Json) :
    regLookup (optField k' v) k = if k' = k then v else none := by
  cases v with
  | none => simp [optField, regLookup]
  | some j => simp [optField, regLookup]

theorem encFields_jsonrpc (jr : Chars) (a b c d e : Option Json) :
    getField (encFields jr a b c d e) kJsonrpc = some (.str jr) := by
  simp +decide [getField, encFields, regLookup_append, regLookup_optField, regLookup]

theorem encFields_id (jr : Chars) (a b c d e : Option Json) :
    getField (encFields jr a b c d e) kId = a := by
  cases a <;>
    simp +decide [getField, encFields, regLookup_append, regLookup_optField, regLookup]

theorem encFields_method (jr : Chars) (a b c d e : Option Json) :
    getField (encFields jr a b c d e) kMethod = b := by
  cases b <;>
    simp +decide [getField, encFields, regLookup_append, regLookup_optField, regLookup]

theorem encFields_params (jr : Chars) (a b c d e : Option Json) :
    getField (encFields jr a b c d e) kParams = c := by
  cases c <;>
    simp +decide [getField, encFields, regLookup_append, regLookup_optField, regLookup]

theorem encFields_result (jr : Chars) (a b c d e : Option Json) :
    getField (encFields jr a b c d e) kResult = d := by
  cases d <;>
    simp +decide [getField, encFields, regLookup_append, regLookup_optField, regLookup]

theorem encFields_error (jr : Chars) (a b c d e : Option Json) :
    getField (encFields jr a b c d e) kError = e := by
  cases e <;>
    simp +decide [getField, encFields, regLookup_append, regLookup_optField, regLookup]

theorem decodeOptField_encID (o : Option MessageID)
    (ho : (match o with
           | some (.number n) => i32InRange n
           | some (.string _) => true
           | some .null => false
           | none => true) = true) :
    decodeOptField (o.map encodeID) decodeID = some o := by
  rcases o with _ | i
  · rfl
  · rcases i with n | s | _
    · have ho' : i32InRange n = true := ho
      show decodeOptField (some (.num n)) decodeID = _
      simp [decodeOptField, decodeID, ho']
    · rfl
    · cases ho

theorem decodeOptField_strF (o : Option Chars) :
    decodeOptField (o.map Json.str) decodeStr = some o := by
  rcases o with _ | s <;> rfl

theorem decodeOptField_value (o : Option Json)
    (ho : (match o with | some j => !j.isNull | none => true) = true) :
    decodeOptField o some = some o := by
  rcases o with _ | j
  · rfl
  · cases j <;> first
      | rfl
      | (exfalso; simp [Json.isNull] at ho)

theorem decodeOptField_err (o : Option ResponseError)
    (ho : (match o with | some e => i32InRange e.code | none => true) = true) :
    decodeOptField (o.map encodeError) decodeError = some o := by
  rcases o with _ | e
  · rfl
  · rcases e with ⟨code, msg⟩
    have ho' : i32InRange code = true := ho
    show decodeOptField (some (encodeError ⟨code, msg⟩)) decodeError = _
    simp only [encodeError]
    simp +decide [decodeOptField, decodeError, getField, regLookup, ho']

/-- The serde codec is lossless on well-formed messages. -/
theorem decode_encode (m : Message) (h : wellFormedMessage m = true) :
    decodeMessage (encodeMessage m) = some m := by
  obtain ⟨jr, id, method, params, result, error⟩ := m
  unfold wellFormedMessage at h
  rw [Bool.and_eq_true, Bool.and_eq_true, Bool.and_eq_true] at h
  dsimp only at h
  obtain ⟨⟨⟨hid, hp⟩, hr⟩, he⟩ := h
  simp only [encodeMessage, decodeMessage, encFields_jsonrpc, encFields_id,
    encFields_method, encFields_params, encFields_result, encFields_error,
    decodeOptField_encID id hid, decodeOptField_strF,
    decodeOptField_value params hp, decodeOptField_value result hr,
    decodeOptField_err error he]

/-! ## The framing codec round trip -/

theorem all_ne_of_all_decide (l : Chars) (d : Char)
    (h : l.all (fun c => !(c == d)) = true) : ∀ c ∈ l, ¬ c = d := by
  intro c hc heq
  have hx := List.all_eq_true.mp h c hc
  subst heq
  simp at hx

theorem all_false_of_all_decide (p : Char → Bool) (l : Chars)
    (h : l.all (fun c => !p c) = true) : ∀ c ∈ l, p c = false := by
  intro c hc
  have hx := List.all_eq_true.mp h c hc
  simpa using hx

theorem digit_not_ws {c : Char} (hd : isDigitChar c = true) : isWsChar c = false := by
  simp only [isWsChar, Bool.or_eq_false_iff]
  refine ⟨⟨⟨?_, ?_⟩, ?_⟩, ?_⟩ <;>
    · simp only [decide_eq_false_iff_not]
      intro h
      rw [h] at hd
      simp [isDigitChar] at hd

theorem readLine_append (l r : Chars) (hl : ∀ c ∈ l, ¬ c = Char.ofNat 10) :
    readLine (l ++ Char.ofNat 10 :: r) = (l ++ [Char.ofNat 10], r) := by
  induction l with
  | nil => simp [readLine]
  | cons c t ih =>
    have hc : ¬ c = Char.ofNat 10 := hl c (by simp)
    have hr := ih (fun c hc2 => hl c (by simp [hc2]))
    simp only [List.cons_append, readLine, if_neg hc, List.append_eq, hr]

theorem dropWhile_cons_neg (p : Char → Bool) (c : Char) (l : Chars) (h : p c = false) :
    (c :: l).dropWhile p = c :: l := by
  simp [List.dropWhile_cons, h]

theorem dropWhile_all (p : Char → Bool) (w r : Chars) (hw : ∀ c ∈ w, p c = true) :
    (w ++ r).dropWhile p = r.dropWhile p := by
  induction w with
  | nil => rfl
  | cons c t ih =>
    simp only [List.cons_append, List.dropWhile_cons, hw c (by simp)]
    exact ih (fun c hc => hw c (by simp [hc]))

theorem trimChars_header (n : Nat) :
    trimChars (clPat ++ natChars n ++ ['\r', '\n']) = clPat ++ natChars n := by
  unfold trimChars
  rw [show clPat ++ natChars n ++ ['\r', '\n']
      = 'C' :: ("ontent-Length: ".data ++ natChars n ++ ['\r', '\n']) from by
    simp [clPat]]
  rw [dropWhile_cons_neg _ _ _ (by decide)]
  rw [show 'C' :: ("ontent-Length: ".data ++ natChars n ++ ['\r', '\n'])
      = (clPat ++ natChars n) ++ ['\r', '\n'] from by simp [clPat]]
  rw [List.reverse_append]
  rw [show (['\r', '\n'] : Chars).reverse = ['\n', '\r'] from by decide]
  rw [dropWhile_all _ _ _ (by decide)]
  rw [List.reverse_append]
  obtain ⟨d, t, hdt⟩ := List.exists_cons_of_ne_nil
    (show (natChars n).reverse ≠ [] from by simp [natChars_ne_nil n])
  have hdig : isDigitChar d = true := natChars_all_digits n d (by
    have hm : d ∈ (natChars n).reverse := by rw [hdt]; exact List.mem_cons_self _ _
    simpa using hm)
  rw [hdt]
  rw [show (d :: t) ++ clPat.reverse = d :: (t ++ clPat.reverse) from rfl]
  rw [dropWhile_cons_neg _ _ _ (digit_not_ws hdig)]
  rw [show d :: (t ++ clPat.reverse) = (d :: t) ++ clPat.reverse from rfl, ← hdt,
    ← List.reverse_append]
  simp

theorem isPrefixOf_self_append (l r : Chars) : l.isPrefixOf (l ++ r) = true := by
  induction l with
  | nil => simp [List.isPrefixOf]
  | cons c t ih => simp [List.isPrefixOf, ih]

theorem isPrefixOf_cons_ne (c1 c2 : Char) (t1 t2 : Chars) (h : ¬ c1 = c2) :
    (c1 :: t1).isPrefixOf (c2 :: t2) = false := by
  simp [List.isPrefixOf, h]

theorem trimStartCLAux_stop (fuel : Nat) (ds : Chars) (hne : ds ≠ [])
    (hd : ∀ c ∈ ds, isDigitChar c = true) :
    trimStartCLAux fuel ds = ds := by
  cases fuel with
  | zero => rfl
  | succ f =>
    obtain ⟨d, t, hdt⟩ := List.exists_cons_of_ne_nil hne
    have hdig : isDigitChar d = true := hd d (by rw [hdt]; simp)
    have hpre : clPat.isPrefixOf ds = false := by
      rw [hdt]
      rw [show clPat = 'C' :: "ontent-Length: ".data from by decide]
      exact isPrefixOf_cons_ne _ _ _ _
        (fun h => by rw [← h] at hdig; simp [isDigitChar] at hdig)
    simp [trimStartCLAux, hpre]

theorem trimStartCL_header (ds : Chars) (hne : ds ≠ [])
    (hd : ∀ c ∈ ds, isDigitChar c = true) :
    trimStartCL (clPat ++ ds) = ds := by
  unfold trimStartCL
  cases hlen : (clPat ++ ds).length with
  | zero => simp [clPat] at hlen
  | succ L =>
    rw [show trimStartCLAux (L + 1 + 1) (clPat ++ ds)
        = if clPat.isPrefixOf (clPat ++ ds) then
            trimStartCLAux (L + 1) ((clPat ++ ds).drop clPat.length)
          else clPat ++ ds from rfl]
    rw [if_pos (by rw [isPrefixOf_self_append])]
    rw [show (clPat ++ ds).drop clPat.length = ds from by
      simpa using List.drop_left clPat ds]
    exact trimStartCLAux_stop _ _ hne hd

theorem parseUsize_natChars (n : Nat) : parseUsize (natChars n) = some n := by
  obtain ⟨d, t, hdt⟩ := List.exists_cons_of_ne_nil (natChars_ne_nil n)
  have hdig : isDigitChar d = true := natChars_all_digits n d (by rw [hdt]; simp)
  have hplus : ¬ d = '+' := char_ne_of_digit_ne _ hdig (by decide)
  have hall : (d :: t).all isDigitChar = true := by
    rw [← hdt, List.all_eq_true]
    exact fun c hc => natChars_all_digits n c hc
  rw [hdt]
  simp only [parseUsize, if_neg hplus]
  rw [if_pos ⟨List.cons_ne_nil d t, hall⟩, ← hdt, digitsVal_natChars]

theorem readHeaders_frame (L : Nat) (tail2 : Chars) (fuel : Nat) (h2 : 2 ≤ fuel) :
    readHeaders fuel (clPat ++ natChars L ++ '\r' :: '\n' :: '\r' :: '\n' :: tail2) none
      = .ok (some L, tail2) := by
  obtain ⟨f, rfl⟩ : ∃ f, fuel = f + 2 := ⟨fuel - 2, by omega⟩
  have hline1 : readLine (clPat ++ natChars L ++ '\r' :: '\n' :: '\r' :: '\n' :: tail2)
      = (clPat ++ natChars L ++ ['\r', '\n'], '\r' :: '\n' :: tail2) := by
    have hrl := readLine_append (clPat ++ natChars L ++ ['\r']) ('\r' :: '\n' :: tail2)
      (by
        intro c hc
        rcases List.mem_append.mp hc with hc | hc
        · rcases List.mem_append.mp hc with hc | hc
          · exact all_ne_of_all_decide clPat (Char.ofNat 10) (by decide) c hc
          · exact char_ne_of_digit_ne _ (natChars_all_digits L c hc) (by decide)
        · exact all_ne_of_all_decide ['\r'] (Char.ofNat 10) (by decide) c hc)
    rw [show (clPat ++ natChars L ++ ['\r']) ++ Char.ofNat 10 :: ('\r' :: '\n' :: tail2)
        = clPat ++ natChars L ++ '\r' :: '\n' :: '\r' :: '\n' :: tail2 from by
      simp] at hrl
    rw [hrl]
    simp
  have hline2 : readLine ('\r' :: '\n' :: tail2) = (['\r', '\n'], tail2) := by
    have hrl := readLine_append ['\r'] tail2
      (all_ne_of_all_decide ['\r'] (Char.ofNat 10) (by decide))
    simpa using hrl
  rw [show f + 2 = (f + 1) + 1 from rfl]
  rw [readHeaders.eq_def]
  simp only [hline1]
  rw [if_neg (by simp [clPat])]
  rw [trimChars_header L]
  rw [if_neg (by simp [clPat])]
  rw [if_pos (isPrefixOf_self_append clPat (natChars L))]
  rw [trimStartCL_header (natChars L) (natChars_ne_nil L)
    (fun c hc => natChars_all_digits L c hc)]
  rw [parseUsize_natChars L]
  show readHeaders (f + 1) ('\r' :: '\n' :: tail2) (some L) = Except.ok (some L, tail2)
  rw [readHeaders.eq_def]
  simp only [hline2]
  rw [if_neg (by decide)]
  rw [show trimChars ['\r', '\n'] = [] from by decide]
  simp

/-- Claim C7 core: reading back a written message recovers the message, for
every message whose serde encoding is lossless. -/
theorem read_write_message (m : Message) (hm : wellFormedMessage m = true)
    (rest : Chars) :
    read_message (write_message m ++ rest) = .ok (m, rest) := by
  have hparse : from_slice (to_vec m) = some m := by
    unfold from_slice
    have hp := parse_render (encodeMessage m) ((to_vec m).length + 1) []
      (le_trans (jsize_le_render _) (by simp [to_vec])) (by intro c hc; cases hc)
    rw [List.append_nil] at hp
    rw [show (renderJson (encodeMessage m)) = to_vec m from rfl] at hp
    rw [hp]
    simp [decode_encode m hm]
  unfold write_message read_message
  rw [show ("Content-Length: ".data ++ natChars (to_vec m).length
        ++ "\r\n\r\n".data ++ to_vec m) ++ rest
      = clPat ++ natChars (to_vec m).length
        ++ '\r' :: '\n' :: '\r' :: '\n' :: (to_vec m ++ rest) from by
    simp [clPat]]
  rw [readHeaders_frame (to_vec m).length (to_vec m ++ rest) _ (by simp [clPat])]
  simp only [bind, Except.bind]
  rw [if_neg (show ¬ (to_vec m ++ rest).length < (to_vec m).length from by
    simp [List.length_append])]
  rw [show (to_vec m ++ rest).take (to_vec m).length = to_vec m from
    List.take_left _ _]
  rw [show (to_vec m ++ rest).drop (to_vec m).length = rest from
    List.drop_left _ _]
  rw [hparse]

/-! ## Message-loop dispatch invariants -/

theorem handleServerMessage_diagnostics (st : LoopState) (m : Message) :
    (handleServerMessage st m).1.diagnostics = st.diagnostics := by
  unfold handleServerMessage
  rcases m with ⟨jr, id, method, params, result, error⟩
  rcases id with _ | i
  · rcases method with _ | meth
    · rfl
    · dsimp only
      split
      · rfl
      · split
        · split <;> rfl
        · rfl
  · dsimp only
    split
    · rfl
    · rfl

theorem handleServerMessage_no_write (st : LoopState) (i : MessageID)
    (jr meth : Chars) (p r : Option Json) (er : Option ResponseError) :
    ((handleServerMessage st ⟨jr, some i, some meth, p, r, er⟩).2.all
      fun ef => !ef.isWrote) = true := by
  unfold handleServerMessage
  dsimp only
  split
  · rcases er with _ | e
    · rcases r with _ | rv <;> simp [Effect.isWrote]
    · simp [Effect.isWrote]
  · simp

/-! ## Document-tracking sessions (claim C3) -/

theorem sessionsFold_append (acc : List (List Nat) × List Nat) (a b : List LspEmit) :
    sessionsFold acc (a ++ b) = sessionsFold (sessionsFold acc a) b := by
  unfold sessionsFold
  exact List.foldl_append _ _ _ _

theorem runFileOps_sessions (p : Chars) : ∀ (ops : List FileOp) (st : OpenFiles)
    (segs : List (List Nat)) (cur : List Nat),
    (∀ s ∈ segs, s = List.range' 1 s.length) →
    MatchSt p st cur →
    ∀ s ∈ (sessionsFold (segs, cur) (runFileOps st p ops).2).1
        ++ [(sessionsFold (segs, cur) (runFileOps st p ops).2).2],
      s = List.range' 1 s.length := by
  intro ops
  induction ops with
  | nil =>
    intro st segs cur hsegs hm s hs
    simp only [runFileOps, sessionsFold, List.foldl_nil] at hs
    rcases List.mem_append.mp hs with hs | hs
    · exact hsegs s hs
    · have hcur : s = cur := by simpa using hs
      subst hcur
      rcases hm with ⟨_, hcur⟩ | ⟨v, _, hcur, _⟩
      · rw [hcur]; rfl
      · rw [hcur]; simp
  | cons op ops ih =>
    intro st segs cur hsegs hm
    rcases hm with ⟨hst, hcur⟩ | ⟨v, hst, hcur, hv⟩
    · -- untracked, empty current session
      subst hst; subst hcur
      cases op with
      | openOp c =>
        have heq : runFileOps [] p (.openOp c :: ops)
            = ((runFileOps [(to_uri p, 1)] p ops).1,
               [.didOpen (to_uri p) 1 c] ++ (runFileOps [(to_uri p, 1)] p ops).2) := rfl
        intro s hs
        rw [heq, sessionsFold_append] at hs
        have hfold : sessionsFold (segs, ([] : List Nat)) [.didOpen (to_uri p) 1 c]
            = (segs, [1]) := rfl
        rw [hfold] at hs
        exact ih [(to_uri p, 1)] segs [1] hsegs (Or.inr ⟨1, rfl, by simp, le_rfl⟩) s hs
      | changeOp c =>
        have heq : runFileOps [] p (.changeOp c :: ops)
            = ((runFileOps [] p ops).1, [] ++ (runFileOps [] p ops).2) := rfl
        intro s hs
        rw [heq, sessionsFold_append] at hs
        exact ih [] segs [] hsegs (Or.inl ⟨rfl, rfl⟩) s hs
      | closeOp =>
        have heq : runFileOps [] p (.closeOp :: ops)
            = ((runFileOps [] p ops).1, [] ++ (runFileOps [] p ops).2) := rfl
        intro s hs
        rw [heq, sessionsFold_append] at hs
        exact ih [] segs [] hsegs (Or.inl ⟨rfl, rfl⟩) s hs
    · -- tracked at version v, current session is [1, …, v]
      subst hst; subst hcur
      cases op with
      | openOp c =>
        have heq : runFileOps [(to_uri p, v)] p (.openOp c :: ops)
            = ((runFileOps [(to_uri p, v)] p ops).1,
               [] ++ (runFileOps [(to_uri p, v)] p ops).2) := by
          simp [runFileOps, open_file, fLookup]
        intro s hs
        rw [heq, sessionsFold_append] at hs
        exact ih [(to_uri p, v)] segs (List.range' 1 v) hsegs
          (Or.inr ⟨v, rfl, rfl, hv⟩) s hs
      | changeOp c =>
        have heq : runFileOps [(to_uri p, v)] p (.changeOp c :: ops)
            = ((runFileOps [(to_uri p, v + 1)] p ops).1,
               [.didChange (to_uri p) (v + 1) c]
                 ++ (runFileOps [(to_uri p, v + 1)] p ops).2) := by
          simp [runFileOps, notify_change, fLookup, fSet]
        intro s hs
        rw [heq, sessionsFold_append] at hs
        have hconcat : List.range' 1 v ++ [v + 1] = List.range' 1 (v + 1) := by
          rw [List.range'_concat 1 v]
          simp [Nat.add_comm]
        have hfold : sessionsFold (segs, List.range' 1 v)
            [.didChange (to_uri p) (v + 1) c] = (segs, List.range' 1 (v + 1)) := by
          show (segs, List.range' 1 v ++ [v + 1]) = _
          rw [hconcat]
        rw [hfold] at hs
        exact ih [(to_uri p, v + 1)] segs (List.range' 1 (v + 1)) hsegs
          (Or.inr ⟨v + 1, rfl, rfl, by omega⟩) s hs
      | closeOp =>
        have heq : runFileOps [(to_uri p, v)] p (.closeOp :: ops)
            = ((runFileOps [] p ops).1,
               [.didClose (to_uri p)] ++ (runFileOps [] p ops).2) := by
          simp [runFileOps, close_file, fLookup, fErase]
        intro s hs
        rw [heq, sessionsFold_append] at hs
        have hfold : sessionsFold (segs, List.range' 1 v) [.didClose (to_uri p)]
            = (segs ++ [List.range' 1 v], []) := rfl
        rw [hfold] at hs
        refine ih [] (segs ++ [List.range' 1 v]) [] ?_ (Or.inl ⟨rfl, rfl⟩) s hs
        intro t ht
        rcases List.mem_append.mp ht with ht | ht
        · exact hsegs t ht
        · have : t = List.range' 1 v := by simpa using ht
          subst this
          simp

/-! ## Edit ordering (claim C5) -/

theorem orderedInsert_run_to_end (r : TextEdit → TextEdit → Prop) [DecidableRel r]
    (a : TextEdit) : ∀ l : List TextEdit, (∀ x ∈ l, ¬ r a x) →
    List.orderedInsert r a l = l ++ [a] := by
  intro l
  induction l with
  | nil => intro _; rfl
  | cons x l ih =>
    intro h
    show (if r a x then a :: x :: l else x :: List.orderedInsert r a l) = _
    rw [if_neg (h x (List.mem_cons_self x l))]
    rw [ih fun y hy => h y (List.mem_cons_of_mem x hy)]
    rfl

theorem insertionSortDesc_of_strictAsc :
    ∀ es : List TextEdit,
    es.Pairwise (fun a b => a.range.start.line < b.range.start.line) →
    es.insertionSort (fun a b => b.range.start.line ≤ a.range.start.line) = es.reverse := by
  intro es
  induction es with
  | nil => intro _; rfl
  | cons a es ih =>
    intro hpw
    rw [List.pairwise_cons] at hpw
    show List.orderedInsert _ a (es.insertionSort _) = _
    rw [ih hpw.2]
    rw [orderedInsert_run_to_end _ a es.reverse ?_]
    · simp
    · intro x hx
      have := hpw.1 x (List.mem_reverse.mp hx)
      omega

theorem convertEdit_start (lines : List Chars) (e : TextEditParams) (t : TextEdit)
    (h : convertEdit lines e = some t) :
    1 ≤ e.start_line ∧ t.range.start.line = e.start_line - 1 := by
  unfold convertEdit at h
  rcases hs : u32Sub e.start_line 1 with _ | s
  · rw [hs] at h; exact absurd h (by simp)
  · rcases he : u32Sub e.end_line 1 with _ | en
    · rw [hs, he] at h; exact absurd h (by simp)
    · rw [hs, he] at h
      simp only [Option.some.injEq] at h
      unfold u32Sub at hs
      by_cases h1 : 1 ≤ e.start_line
      · rw [if_pos h1] at hs
        refine ⟨h1, ?_⟩
        rw [← h]
        simpa using hs.symm
      · rw [if_neg h1] at hs; exact absurd hs (by simp)

theorem convertEdits_mem (lines : List Chars) :
    ∀ (edits : List TextEditParams) (ts : List TextEdit),
    convertEdits lines edits = some ts →
    ∀ y ∈ ts, ∃ b ∈ edits, convertEdit lines b = some y := by
  intro edits
  induction edits with
  | nil =>
    intro ts h y hy
    simp only [convertEdits, List.mapM_nil] at h
    cases h
    exact absurd hy (by simp)
  | cons e edits ih =>
    intro ts h y hy
    simp only [convertEdits, List.mapM_cons] at h
    rcases ht : convertEdit lines e with _ | t
    · rw [ht] at h; exact absurd h (by simp)
    · rcases hts : edits.mapM (convertEdit lines) with _ | ts2
      · rw [ht, hts] at h; exact absurd h (by simp)
      · rw [ht, hts] at h
        simp only [Option.pure_def, Option.bind_eq_bind, Option.some_bind, Option.some.injEq] at h
        subst h
        rcases List.mem_cons.mp hy with hy | hy
        · exact ⟨e, List.mem_cons_self e edits, by rw [ht, hy]⟩
        · rcases ih ts2 hts y hy with ⟨b, hb, hcb⟩
          exact ⟨b, List.mem_cons_of_mem e hb, hcb⟩

theorem convertEdits_pairwise (lines : List Chars) :
    ∀ (edits : List TextEditParams) (ts : List TextEdit),
    convertEdits lines edits = some ts →
    edits.Pairwise (fun a b => a.start_line < b.start_line) →
    ts.Pairwise (fun a b => a.range.start.line < b.range.start.line) := by
  intro edits
  induction edits with
  | nil =>
    intro ts h _
    simp only [convertEdits, List.mapM_nil] at h
    cases h
    exact List.Pairwise.nil
  | cons e edits ih =>
    intro ts h hpw
    rw [List.pairwise_cons] at hpw
    simp only [convertEdits, List.mapM_cons] at h
    rcases ht : convertEdit lines e with _ | t
    · rw [ht] at h; exact absurd h (by simp)
    · rcases hts : edits.mapM (convertEdit lines) with _ | ts2
      · rw [ht, hts] at h; exact absurd h (by simp)
      · rw [ht, hts] at h
        simp only [Option.pure_def, Option.bind_eq_bind, Option.some_bind, Option.some.injEq] at h
        subst h
        refine List.Pairwise.cons ?_ (ih ts2 hts hpw.2)
        intro y hy
        rcases convertEdits_mem lines edits ts2 hts y hy with ⟨b, hb, hcb⟩
        have h1 := convertEdit_start lines e t ht
        have h2 := convertEdit_start lines b y hcb
        have h3 := hpw.1 b hb
        omega

/-! ## Rename edit counting (claim C10) -/

theorem renameFold_count : ∀ (l : List TextEdit) (c : Chars) (k : Nat),
    (l.foldl (fun acc e => (renameApplyOne acc.1 e.range e.new_text, acc.2 + 1)) (c, k)).2
      = k + l.length := by
  intro l
  induction l with
  | nil => intro c k; simp
  | cons e l ih =>
    intro c k
    show (l.foldl _ (renameApplyOne c e.range e.new_text, k + 1)).2 = _
    rw [ih]
    simp only [List.length_cons]
    omega

end Spec2Proof

namespace Spec2Proof

/-! # The claims -/

/-- Claim C1.  The claim says that a `textDocument/publishDiagnostics`
notification updates the diagnostic cache for its URI so that a later
`get_diagnostics` returns the published list.  In the code, dispatch never
touches the `_diagnostics` cache at all (first conjunct), a publish
notification arriving in the state the loop actually runs in (no registered
handlers) is merely logged as unhandled (second conjunct), and
`get_diagnostics` is unaffected by any dispatched message (third conjunct). -/
theorem C1_publish_diagnostics_never_cached :
    (∀ (st : LoopState) (m : Message),
        (handleServerMessage st m).1.diagnostics = st.diagnostics) ∧
    (∀ (payload : Json),
        handleServerMessage initialLoopState
            ⟨"2.0".data, none, some "textDocument/publishDiagnostics".data,
              some payload, none, none⟩
          = (initialLoopState,
             [Effect.noHandlerLogged "textDocument/publishDiagnostics".data])) ∧
    (∀ (uri : Chars) (st : LoopState) (m : Message),
        get_diagnostics (handleServerMessage st m).1 uri = get_diagnostics st uri) := by
  refine ⟨handleServerMessage_diagnostics, fun payload => rfl, ?_⟩
  intro uri st m
  unfold get_diagnostics
  rw [handleServerMessage_diagnostics]

/-- Claim C2.  The claim says that a message carrying both `method` and `id` is
dispatched as a server-to-client request: the registered handler runs and a
response (or a `-32603` error response) is written back.  In the code the
`id`-test comes first, so such a message never reaches the request path: no
dispatch of it ever writes to the transport (first conjunct), and with a
handler registered for the method and an empty pending-response table the
message is dropped with no effect at all (second conjunct), even though
`Message::is_request` classifies it as a request (third conjunct). -/
theorem C2_server_requests_never_dispatched :
    (∀ (st : LoopState) (i : MessageID) (jr meth : Chars) (p r : Option Json)
        (er : Option ResponseError),
        ((handleServerMessage st ⟨jr, some i, some meth, p, r, er⟩).2.all
          fun ef => !ef.isWrote) = true) ∧
    (handleServerMessage
        ⟨[], [("m".data, fun _ => Except.ok Json.null)], [], []⟩
        ⟨"2.0".data, some (MessageID.number 1), some "m".data, none, none, none⟩
      = (⟨[], [("m".data, fun _ => Except.ok Json.null)], [], []⟩, [])) ∧
    (Message.is_request
        ⟨"2.0".data, some (MessageID.number 1), some "m".data, none, none, none⟩
      = true) :=
  ⟨handleServerMessage_no_write, rfl, rfl⟩

/-- Claim C3.  Along any sequence of `open_file`/`notify_change`/`close_file`
calls on one path (each read succeeding), every open-close session of the
emitted `didOpen`/`didChange` versions is exactly `[1, 2, …, n]` — strictly
increasing from 1 — and `open_file` on an already-open path is a no-op
success. -/
theorem C3_versions_strictly_increasing :
    (∀ (path : Chars) (ops : List FileOp),
        ∀ s ∈ allSessions (runFileOps [] path ops).2, s = List.range' 1 s.length) ∧
    (∀ (st : OpenFiles) (path : Chars) (c : Chars),
        is_file_open st path = true → open_file st path (.ok c) = (st, [], .ok ())) := by
  constructor
  · intro path ops s hs
    exact runFileOps_sessions path ops [] [] []
      (fun t ht => absurd ht (List.not_mem_nil t)) (Or.inl ⟨rfl, rfl⟩) s hs
  · intro st path c h
    unfold is_file_open at h
    simp only [open_file]
    rw [if_pos h]

/-- Witness for C3 at a concrete trace: the session of
`open; change; change; close; open` splits into `[1, 2, 3]` and `[1]`, and a
re-`open` while version 2 is live really is a no-op. -/
theorem C3_versions_strictly_increasing_witness :
    ([1, 2, 3] ∈ allSessions
        (runFileOps [] "f.rs".data
          [.openOp [], .changeOp [], .changeOp [], .closeOp, .openOp []]).2 →
      [1, 2, 3] = List.range' 1 ([1, 2, 3] : List Nat).length) ∧
    (is_file_open [(to_uri "f.rs".data, 2)] "f.rs".data = true ∧
      open_file [(to_uri "f.rs".data, 2)] "f.rs".data (.ok [])
        = ([(to_uri "f.rs".data, 2)], [], .ok ())) :=
  ⟨fun hs => C3_versions_strictly_increasing.1 "f.rs".data
      [.openOp [], .changeOp [], .changeOp [], .closeOp, .openOp []] [1, 2, 3] hs,
   by decide,
   C3_versions_strictly_increasing.2 [(to_uri "f.rs".data, 2)] "f.rs".data []
      (by decide)⟩

/-- Claim C4.  The claim says an edit whose `end_line` exceeds the file's line
count succeeds, replacing through end-of-file.  In the code the conversion does
produce the end position `(end_line − 1, 0)` for the out-of-range line (first
conjunct), but `position_to_index` then rejects exactly that line (second
conjunct), so the whole operation fails instead of succeeding (third
conjunct): on the two-line file, the edit addressing lines 1-5 errors with
"Invalid line number: 4". -/
theorem C4_end_line_beyond_eof_fails :
    convertEdit (rustLines "L1\nL2\n".data) ⟨1, 5, "X".data⟩
      = some ⟨⟨⟨0, 0⟩, ⟨4, 0⟩⟩, "X".data⟩ ∧
    position_to_index "L1\nL2\n".data ⟨4, 0⟩ = .error (.invalidLine 4) ∧
    apply_text_edits "L1\nL2\n".data [⟨1, 5, "X".data⟩] = .error (.invalidLine 4) :=
  ⟨rfl, rfl, rfl⟩

/-- Counterexample to claim C5 as stated: the same two non-overlapping edits
give different final contents depending on the order the caller lists them, and
the listed order `[line-2 edit, line-1 edit]` does not match the
descending-start application the claim describes. -/
theorem C5_listed_order_counterexample :
    apply_text_edits "A\nB".data [⟨2, 2, "Y".data⟩, ⟨1, 1, "XX".data⟩]
      = .ok "XXYB".data ∧
    applyDescSpec "A\nB".data [⟨2, 2, "Y".data⟩, ⟨1, 1, "XX".data⟩]
      = .ok "XX\nY".data ∧
    apply_text_edits "A\nB".data [⟨1, 1, "XX".data⟩, ⟨2, 2, "Y".data⟩]
      = .ok "XX\nY".data :=
  ⟨rfl, rfl, rfl⟩

/-- Claim C5, amended.  The code applies the edits in reverse of the order the
caller lists them (not in descending start order regardless of listed order);
this coincides with descending-start application exactly when the caller lists
the edits in strictly ascending `start_line` order. -/
theorem C5_descending_when_listed_ascending (content : Chars)
    (edits : List TextEditParams)
    (h : edits.Pairwise fun a b => a.start_line < b.start_line) :
    apply_text_edits content edits = applyDescSpec content edits := by
  simp only [apply_text_edits, applyDescSpec]
  rcases hconv : convertEdits (rustLines content) edits with _ | es
  · rfl
  · simp only [bind, Except.bind]
    rw [insertionSortDesc_of_strictAsc es
      (convertEdits_pairwise (rustLines content) edits es hconv h)]

/-- Witness for the amended C5 at a concrete ascending edit list. -/
theorem C5_descending_when_listed_ascending_witness :
    ([⟨1, 1, "XX".data⟩, ⟨2, 2, "Y".data⟩] : List TextEditParams).Pairwise
        (fun a b => a.start_line < b.start_line) ∧
    apply_text_edits "A\nB".data [⟨1, 1, "XX".data⟩, ⟨2, 2, "Y".data⟩]
      = applyDescSpec "A\nB".data [⟨1, 1, "XX".data⟩, ⟨2, 2, "Y".data⟩] :=
  ⟨by decide,
   C5_descending_when_listed_ascending "A\nB".data
     [⟨1, 1, "XX".data⟩, ⟨2, 2, "Y".data⟩] (by decide)⟩

/-- Claim C6.  `notify_change` on a path that is not open fails with the
"Cannot notify change for unopened file" error, emits no notification, and
leaves the open-file table exactly as it was — whatever the read would have
returned. -/
theorem C6_change_unopened_fails (st : OpenFiles) (path : Chars)
    (read : Except Chars Chars) (h : is_file_open st path = false) :
    notify_change st path read
      = (st, [], .error ("Cannot notify change for unopened file: ".data ++ path)) := by
  unfold is_file_open at h
  have hnone : fLookup st (to_uri path) = none := by
    rcases hl : fLookup st (to_uri path) with _ | v
    · rfl
    · rw [hl] at h; exact absurd h (by simp)
  simp only [notify_change]
  rw [hnone]

/-- Witness for C6 on the empty table. -/
theorem C6_change_unopened_fails_witness :
    is_file_open [] "f.rs".data = false ∧
    notify_change [] "f.rs".data (.ok "x".data)
      = ([], [], .error ("Cannot notify change for unopened file: ".data
          ++ "f.rs".data)) :=
  ⟨rfl, C6_change_unopened_fails [] "f.rs".data (.ok "x".data) rfl⟩

/-- Counterexample to claim C7 as stated: a `Message` whose `result` field is
the explicit JSON `null` does not survive the write/read round trip — serde's
`Option` decoding collapses the serialized `"result": null` to an absent field,
so the reader returns a different `Message`. -/
theorem C7_null_result_counterexample :
    read_message (write_message
        ⟨"2.0".data, none, none, none, some Json.null, none⟩)
      = .ok (⟨"2.0".data, none, none, none, none, none⟩, []) ∧
    read_message (write_message
        ⟨"2.0".data, none, none, none, some Json.null, none⟩)
      ≠ .ok ((⟨"2.0".data, none, none, none, some Json.null, none⟩ : Message), []) := by
  constructor
  · rfl
  · intro h
    have h1 : (Except.ok ((⟨"2.0".data, none, none, none, none, none⟩ : Message), [])
          : Except ReadError (Message × Chars))
        = .ok (⟨"2.0".data, none, none, none, some Json.null, none⟩, []) := by
      rw [← h]
      rfl
    have h2 := congrArg (fun x => match x with
      | Except.ok (msg, _) => msg.result
      | Except.error _ => none) h1
    simp at h2

/-- Claim C7, amended.  The write/read round trip of the framing codec is the
identity on well-formed messages: those whose optional `id`/`params`/`result`
fields are not the explicit JSON `null` and whose numeric id and error code fit
in `i32`; the reader also leaves any trailing bytes unconsumed. -/
theorem C7_roundtrip_wellformed (m : Message) (rest : Chars)
    (h : wellFormedMessage m = true) :
    read_message (write_message m ++ rest) = .ok (m, rest) :=
  read_write_message m h rest

/-- Witness for the amended C7 at a concrete request message with trailing
input. -/
theorem C7_roundtrip_wellformed_witness :
    wellFormedMessage
        ⟨"2.0".data, some (MessageID.number 5), some "ping".data, none, none, none⟩
      = true ∧
    read_message (write_message
          ⟨"2.0".data, some (MessageID.number 5), some "ping".data, none, none, none⟩
        ++ "X".data)
      = .ok ((⟨"2.0".data, some (MessageID.number 5), some "ping".data,
          none, none, none⟩ : Message), "X".data) :=
  ⟨by decide,
   C7_roundtrip_wellformed
     ⟨"2.0".data, some (MessageID.number 5), some "ping".data, none, none, none⟩
     "X".data (by decide)⟩

/-- Counterexample to claim C8 as stated: `/w/node_modules` has the path
component `node_modules`, yet with no `.gitignore` the filter does not ignore
it — the code checks for the substring `/node_modules/` and never for a final
`node_modules` component. -/
theorem C8_component_counterexample :
    "node_modules".data ∈ pathComponents "/w/node_modules".data ∧
    is_ignored ⟨none, "/w".data⟩ "/w/node_modules".data = false :=
  ⟨by decide, rfl⟩

/-- Claim C8, amended.  What is unconditionally ignored — independent of the
`.gitignore` matcher and the workspace root — are the paths matching the
source's substring tests: containing `/.git/` or ending in `/.git`, containing
`/node_modules/`, `/.venv/`, or `/__pycache__/`, ending in `~`, or containing
`.bak` or `.swp` anywhere. -/
theorem C8_substring_always_ignored (g : Option (Chars → Bool)) (root p : Chars)
    (h : charsContains p "/.git/".data = true ∨ charsEndsWith p "/.git".data = true
       ∨ charsContains p "/node_modules/".data = true
       ∨ charsContains p "/.venv/".data = true
       ∨ charsContains p "/__pycache__/".data = true
       ∨ charsEndsWith p "~".data = true
       ∨ charsContains p ".bak".data = true
       ∨ charsContains p ".swp".data = true) :
    is_ignored ⟨g, root⟩ p = true := by
  have halways : is_always_ignored p = true := by
    unfold is_always_ignored
    rcases h with h | h | h | h | h | h | h | h <;> simp [h]
  unfold is_ignored
  rw [halways]
  simp

/-- Witness for the amended C8: a path under `node_modules` is ignored whatever
the gitignore matcher says. -/
theorem C8_substring_always_ignored_witness :
    charsContains "/w/node_modules/x".data "/node_modules/".data = true ∧
    is_ignored ⟨some (fun _ => false), "/w".data⟩ "/w/node_modules/x".data = true :=
  ⟨by decide,
   C8_substring_always_ignored (some (fun _ => false)) "/w".data
     "/w/node_modules/x".data (Or.inr (Or.inr (Or.inl (by decide))))⟩

/-- Claim C9.  The 1-indexed to 0-indexed conversion is total when both lines
of every edit are at least 1 (first conjunct); with `start_line = 0` or
`end_line = 0` the checked `u32` subtraction fails (second conjunct), so
`apply_text_edits` on such an edit aborts with the underflow panic (third
conjunct), which is not any of the function's normal "Invalid line number"
errors (fourth conjunct). -/
theorem C9_u32_conversion_underflow :
    (∀ (lines : List Chars) (e : TextEditParams),
        1 ≤ e.start_line → 1 ≤ e.end_line → (convertEdit lines e).isSome = true) ∧
    (∀ (lines : List Chars) (e : TextEditParams),
        e.start_line = 0 ∨ e.end_line = 0 → convertEdit lines e = none) ∧
    (∀ (content new_text : Chars) (el : Nat),
        apply_text_edits content [⟨0, el, new_text⟩]
          = .error EditError.underflowPanic) ∧
    (∀ l : Nat, EditError.underflowPanic ≠ EditError.invalidLine l) := by
  refine ⟨?_, ?_, ?_, ?_⟩
  · intro lines e h1 h2
    unfold convertEdit
    rw [show u32Sub e.start_line 1 = some (e.start_line - 1) from by
      unfold u32Sub; rw [if_pos h1]]
    rw [show u32Sub e.end_line 1 = some (e.end_line - 1) from by
      unfold u32Sub; rw [if_pos h2]]
    rfl
  · intro lines e h
    rcases h with h | h
    · unfold convertEdit
      rw [show u32Sub e.start_line 1 = none from by rw [h]; rfl]
    · unfold convertEdit
      rw [show u32Sub e.end_line 1 = none from by rw [h]; rfl]
      rcases hfs : u32Sub e.start_line 1 with _ | s <;> rfl
  · intro content new_text el
    rfl
  · intro l h
    exact EditError.noConfusion h

/-- Witness for C9: the conversion succeeds at `(1, 2)` and fails at `(0, 2)`. -/
theorem C9_u32_conversion_underflow_witness :
    (convertEdit [] ⟨1, 2, []⟩).isSome = true ∧
    convertEdit [] ⟨0, 2, []⟩ = none ∧
    EditError.underflowPanic ≠ EditError.invalidLine 0 :=
  ⟨C9_u32_conversion_underflow.1 [] ⟨1, 2, []⟩ (by decide) (by decide),
   C9_u32_conversion_underflow.2.1 [] ⟨0, 2, []⟩ (Or.inl rfl),
   C9_u32_conversion_underflow.2.2.2 0⟩

/-- Claim C10.  The rename edit loop counts every edit whether or not it was
applied: `edits_applied` always equals the number of edits (first conjunct), an
edit whose computed indices fail the bounds check leaves the content unchanged
(second conjunct), and on a concrete workspace edit whose single edit is out of
bounds the file survives unmodified while the summary still reports "Applied 1
edits across 1 files" (third conjunct). -/
theorem C10_skipped_edits_still_counted :
    (∀ (content : Chars) (edits : List TextEdit),
        (renameApplyFile content edits).2 = edits.length) ∧
    (∀ (c t : Chars) (r : Range),
        (decide (renameLineIndex (rustLines c) r.start.line + r.start.character
            ≤ c.length)
          && decide (renameLineIndex (rustLines c) r.endPos.line + r.endPos.character
            ≤ c.length)) = false →
        renameApplyOne c r t = c) ∧
    apply_workspace_edit_changes [("f".data, "ab".data)]
      [("f".data, [⟨⟨⟨0, 0⟩, ⟨0, 5⟩⟩, "XYZ".data⟩])]
      = .ok ([("f".data, "ab".data)], "Applied 1 edits across 1 files".data) := by
  refine ⟨?_, ?_, rfl⟩
  · intro content edits
    unfold renameApplyFile
    rw [renameFold_count]
    simp
  · intro c t r h
    simp only [renameApplyOne]
    rw [h]
    rfl

/-- Witness for C10's bounds conjunct: on the two-character file, the edit
ending at character 5 of line 0 is out of bounds and leaves the content
unchanged. -/
theorem C10_skipped_edits_still_counted_witness :
    (decide (renameLineIndex (rustLines "ab".data) 0 + 0 ≤ "ab".data.length)
      && decide (renameLineIndex (rustLines "ab".data) 0 + 5 ≤ "ab".data.length))
      = false ∧
    renameApplyOne "ab".data ⟨⟨0, 0⟩, ⟨0, 5⟩⟩ "XYZ".data = "ab".data :=
  ⟨by decide,
   C10_skipped_edits_still_counted.2.1 "ab".data "XYZ".data ⟨⟨0, 0⟩, ⟨0, 5⟩⟩
     (by decide)⟩

end Spec2Proof
